import Mathlib

/-!
Shallow embedding of the explicit-free-list memory allocator in
src/memoryAllocator.c.

Memory is modelled word-wise: a `Mem` maps a byte address to the 64-bit
machine word stored at that address (all loads and stores in the C code are
`size_t`-sized and land on 8-byte-aligned addresses, so each address used
denotes one whole word).  Machine words are `Nat`; all quantities that occur
in real executions are far below `2 ^ 64`, and the C bit masks
`& ~0xF` / `& ~(pagesize-1)` are power-of-two masks, so they are rendered as
subtraction of a remainder, which agrees with the machine semantics on all
in-range values.  The page provider (`mem_map` / `mem_unmap` /
`mem_pagesize` from memlib) is an external collaborator: `mem_map` is a
parameter `mapRes : Nat → Option Nat` giving the address of a fresh
zero-initialised region (or `none` on refusal), `mem_pagesize` is a
parameter `ps`, and `mem_unmap` calls are recorded in an event trace.
The C `NULL` pointer is the address `0`.
-/

namespace MemoryAllocator

/-- Word-addressed memory: byte address of a word ↦ stored 64-bit word. -/
abbrev Mem := Nat → Nat

/-- `GET(p)` — `*(size_t *)(p)`. -/
def GET (m : Mem) (p : Nat) : Nat := m p

/-- `PUT(p, val)` — `*(size_t *)(p) = (val)`. -/
def PUT (m : Mem) (p v : Nat) : Mem := fun q => if q = p then v else m q

/-- `#define ALIGNMENT 16`. -/
def ALIGNMENT : Nat := 16

/-- `#define OVERHEAD (sizeof(blockHeader) + sizeof(blockFooter))` = 8 + 8. -/
def OVERHEAD : Nat := 16

/-- `#define MINSIZE (sizeof(eflNode))` = two 8-byte pointers. -/
def MINSIZE : Nat := 16

/-- `#define PAGEOVERHEAD ((2 * sizeof(blockHeader)) + (2 * sizeof(blockFooter)))`. -/
def PAGEOVERHEAD : Nat := 32

/-- `#define PAGERATIO 10`. -/
def PAGERATIO : Nat := 10

/-- `ALIGN(size) = ((size + 15) & ~15)`; the mask clears the low 4 bits,
which on in-range values is subtraction of the remainder mod 16. -/
def ALIGN (n : Nat) : Nat := (n + 15) - (n + 15) % 16

/-- `PAGEALIGN(size) = ((size + ps - 1) & ~(ps - 1))` for the power-of-two
page size `ps`; rendered as subtraction of the remainder mod `ps`. -/
def PAGEALIGN (ps n : Nat) : Nat := (n + ps - 1) - (n + ps - 1) % ps

/-- `PACK(size, alloc) = ((size) | (alloc))`. -/
def PACK (size alloc : Nat) : Nat := size ||| alloc

/-- `GET_ALLOC(p) = GET(p) & 0x1`, here applied to the fetched word. -/
def GET_ALLOC (w : Nat) : Nat := w % 2

/-- `GET_SIZE(p) = GET(p) & ~0xF`, here applied to the fetched word; the
mask clears the low 4 bits. -/
def GET_SIZE (w : Nat) : Nat := w - w % 16

/-- `HDRP(bp) = bp - sizeof(blockHeader)`. -/
def HDRP (bp : Nat) : Nat := bp - 8

/-- `FTRP(bp) = bp + GET_SIZE(HDRP(bp)) - OVERHEAD`. -/
def FTRP (m : Mem) (bp : Nat) : Nat := bp + GET_SIZE (GET m (HDRP bp)) - OVERHEAD

/-- `NEXT_BLKP(bp) = bp + GET_SIZE(HDRP(bp))`. -/
def NEXT_BLKP (m : Mem) (bp : Nat) : Nat := bp + GET_SIZE (GET m (HDRP bp))

/-- `PREV_BLKP(bp) = bp - GET_SIZE(bp - OVERHEAD)`. -/
def PREV_BLKP (m : Mem) (bp : Nat) : Nat := bp - GET_SIZE (GET m (bp - OVERHEAD))

/-- The allocator's process-wide state: the heap words, the EFL head
`nextFree` (the global `eflNode *nextFree`; 0 is `NULL`) and the primordial
region base `basePage` (the global `void *basePage`; 0 is `NULL`).
An `eflNode` stored at payload address `a` has its `prev` field in the word
at `a` and its `next` field in the word at `a + 8`. -/
structure AllocState where
  mem : Mem
  nextFree : Nat
  basePage : Nat

/-- Calls made to the page provider, in order. -/
inductive Event where
  | mapCall (bytes : Nat) (result : Option Nat)
  | unmapCall (addr bytes : Nat)
deriving DecidableEq

/-- `addEFLNode(newFree)` — push a free block's payload on the EFL head. -/
def addEFLNode (s : AllocState) (newFree : Nat) : AllocState :=
  if s.nextFree ≠ 0 then
    -- newFree->prev = NULL; newFree->next = nextFree; nextFree->prev = newFree
    let m1 := PUT s.mem newFree 0
    let m2 := PUT m1 (newFree + 8) s.nextFree
    let m3 := PUT m2 s.nextFree newFree
    { s with mem := m3, nextFree := newFree }
  else
    -- nextFree = newFree; nextFree->next = NULL; nextFree->prev = NULL
    let m1 := PUT s.mem (newFree + 8) 0
    let m2 := PUT m1 newFree 0
    { s with mem := m2, nextFree := newFree }

/-- `removeEFLNode(oldFree)` — splice a payload out of the EFL. -/
def removeEFLNode (s : AllocState) (oldFree : Nat) : AllocState :=
  let p := GET s.mem oldFree
  let n := GET s.mem (oldFree + 8)
  if p ≠ 0 ∧ n ≠ 0 then
    -- oldFree->prev->next = oldFree->next; oldFree->next->prev = oldFree->prev
    { s with mem := PUT (PUT s.mem (p + 8) n) n p }
  else if p ≠ 0 then
    -- oldFree->prev->next = NULL
    { s with mem := PUT s.mem (p + 8) 0 }
  else if n ≠ 0 then
    -- nextFree = oldFree->next; nextFree->prev = NULL
    { s with mem := PUT s.mem n 0, nextFree := n }
  else
    { s with nextFree := 0 }

/-- The region-initialisation part of `extend` (source lines after the
successful `mem_map`): write the prologue pair, the epilogue word, the
interior free block header, the write through
`FTRP(pageAdr + OVERHEAD + sizeof(blockHeader))` exactly as in the source,
push the interior payload on the EFL, and record the primordial base on the
first ever extend.  `mem_map` returns fresh zero-initialised pages, so the
mapped range is zeroed first. -/
def extendInit (s : AllocState) (pageAdr size : Nat) : AllocState :=
  let m0 : Mem := fun q => if pageAdr ≤ q ∧ q < pageAdr + size then 0 else s.mem q
  -- page prologue (started half aligned into the page)
  let m1 := PUT m0 (pageAdr + ALIGNMENT / 2) (PACK OVERHEAD 1)
  let m2 := PUT m1 (pageAdr + ALIGNMENT / 2 + 8) (PACK OVERHEAD 1)
  -- page epilogue
  let m3 := PUT m2 (pageAdr + size - 8) (PACK 0 1)
  -- interior free block
  let m4 := PUT m3 (pageAdr + ALIGNMENT / 2 + OVERHEAD) (PACK (size - PAGEOVERHEAD) 0)
  let m5 := PUT m4 (FTRP m4 (pageAdr + OVERHEAD + 8)) (PACK (size - PAGEOVERHEAD) 0)
  let s1 := addEFLNode { s with mem := m5 } (pageAdr + PAGEOVERHEAD)
  if s1.basePage = 0 then { s1 with basePage := pageAdr } else s1

/-- `extend(size)` — round the request to pages, apply the page ratio, call
`mem_map`, and on success initialise the new region. -/
def extend (ps : Nat) (mapRes : Nat → Option Nat) (s : AllocState) (size0 : Nat) :
    AllocState × List Event :=
  let size := if size0 % ps ≠ 0 then PAGEALIGN ps size0 else size0
  let size := size * PAGERATIO
  match mapRes size with
  | none => (s, [Event.mapCall size none])
  | some pageAdr => (extendInit s pageAdr size, [Event.mapCall size (some pageAdr)])

/-- `mm_init()` — clear the globals, extend by one page size, return 0.
`m0` is whatever the process memory held before the call. -/
def mm_init (ps : Nat) (mapRes : Nat → Option Nat) (m0 : Mem) :
    AllocState × Nat × List Event :=
  let s0 : AllocState := { mem := m0, nextFree := 0, basePage := 0 }
  let r := extend ps mapRes s0 ps
  (r.1, 0, r.2)

/-- `setAllocated(bp, size)` — mark a free block allocated, splitting off the
tail as a new free block when the remainder is at least `PAGEOVERHEAD`. -/
def setAllocated (s : AllocState) (bp size : Nat) : AllocState :=
  let available := GET_SIZE (GET s.mem (HDRP bp))
  if available - size ≥ PAGEOVERHEAD then
    let m1 := PUT s.mem (HDRP bp) (PACK size 1)
    let m2 := PUT m1 (FTRP m1 bp) (PACK size 1)
    let s1 := removeEFLNode { s with mem := m2 } bp
    let bp2 := NEXT_BLKP s1.mem bp
    let m3 := PUT s1.mem (HDRP bp2) (PACK (available - size) 0)
    let m4 := PUT m3 (FTRP m3 bp2) (PACK (available - size) 0)
    addEFLNode { s1 with mem := m4 } bp2
  else
    let m1 := PUT s.mem (HDRP bp) (PACK available 1)
    let m2 := PUT m1 (FTRP m1 bp) (PACK available 1)
    removeEFLNode { s with mem := m2 } bp

/-- `coalesce(bp)` — merge a just-freed block with its free neighbours,
returning the possibly moved block pointer. -/
def coalesce (s : AllocState) (bp : Nat) : AllocState × Nat :=
  let prevAlloc := GET_ALLOC (GET s.mem (FTRP s.mem (PREV_BLKP s.mem bp)))
  let nextAlloc := GET_ALLOC (GET s.mem (HDRP (NEXT_BLKP s.mem bp)))
  let size := GET_SIZE (GET s.mem (HDRP bp))
  if prevAlloc ≠ 0 ∧ nextAlloc ≠ 0 then
    -- no free neighbors
    (addEFLNode s bp, bp)
  else if prevAlloc ≠ 0 ∧ nextAlloc = 0 then
    -- next block is free
    let size := size + GET_SIZE (GET s.mem (HDRP (NEXT_BLKP s.mem bp)))
    let s1 := removeEFLNode s (NEXT_BLKP s.mem bp)
    let m1 := PUT s1.mem (HDRP bp) (PACK size 0)
    let m2 := PUT m1 (FTRP m1 bp) (PACK size 0)
    (addEFLNode { s1 with mem := m2 } bp, bp)
  else if prevAlloc = 0 ∧ nextAlloc ≠ 0 then
    -- previous block is free
    let size := size + GET_SIZE (GET s.mem (HDRP (PREV_BLKP s.mem bp)))
    let m1 := PUT s.mem (FTRP s.mem bp) (PACK size 0)
    let m2 := PUT m1 (HDRP (PREV_BLKP m1 bp)) (PACK size 0)
    ({ s with mem := m2 }, PREV_BLKP m2 bp)
  else
    -- both neighbors are free
    let size := size + GET_SIZE (GET s.mem (HDRP (PREV_BLKP s.mem bp)))
                     + GET_SIZE (GET s.mem (HDRP (NEXT_BLKP s.mem bp)))
    let s1 := removeEFLNode s (NEXT_BLKP s.mem bp)
    let m1 := PUT s1.mem (HDRP (PREV_BLKP s1.mem bp)) (PACK size 0)
    let m2 := PUT m1 (FTRP m1 (PREV_BLKP m1 bp)) (PACK size 0)
    ({ s1 with mem := m2 }, PREV_BLKP m2 bp)

/-- The first two statements of `mm_free`: clear the allocated bit in the
block's header and footer. -/
def freedState (s : AllocState) (bp : Nat) : AllocState :=
  let size := GET_SIZE (GET s.mem (HDRP bp))
  let m1 := PUT s.mem (HDRP bp) (PACK size 0)
  { s with mem := PUT m1 (FTRP m1 bp) (PACK size 0) }

/-- `mm_free(bp)` — clear the tags, coalesce, and unmap the enclosing region
when it became empty and is not the primordial one. -/
def mm_free (s : AllocState) (bp : Nat) : AllocState × List Event :=
  let r := coalesce (freedState s bp) bp
  let s2 := r.1
  let bp2 := r.2
  let size := GET_SIZE (GET s2.mem (HDRP bp2))
  if GET_SIZE (GET s2.mem (HDRP (PREV_BLKP s2.mem bp2))) = OVERHEAD ∧
     GET_SIZE (GET s2.mem (HDRP (NEXT_BLKP s2.mem bp2))) = 0 then
    let start := bp2 - 2 * OVERHEAD
    if start = s2.basePage then (s2, [])
    else
      let s3 := removeEFLNode s2 bp2
      (s3, [Event.unmapCall start (size + PAGEOVERHEAD)])
  else (s2, [])

/-- The first-fit walk of `mm_malloc`: follow `next` links from `avail`
until a block of size at least `sizeAlign` is found or `NULL` is reached.
`fuel` bounds the walk; `none` means the fuel ran out (which cannot happen
on a well-formed finite list), `some none` that the walk reached `NULL`,
`some (some bp)` the first fitting payload. -/
def findFit (m : Mem) (sizeAlign : Nat) : Nat → Nat → Option (Option Nat)
  | 0, _ => none
  | fuel + 1, avail =>
    if avail = 0 then some none
    else if GET_SIZE (GET m (HDRP avail)) ≥ sizeAlign then some (some avail)
    else findFit m sizeAlign fuel (GET m (avail + 8))

/-- `mm_malloc(size)` — first-fit search; on failure extend and retry by
self-recursion.  `fuel` bounds the self-recursion (the C code has no such
bound: `none` means the recursion did not terminate within `fuel` calls),
`wfuel` bounds the first-fit walk.  Returns the final state, the payload
pointer (`none` is `NULL`) and the page-provider calls made. -/
def mm_malloc (ps : Nat) (mapRes : Nat → Option Nat) (wfuel : Nat) :
    Nat → AllocState → Nat → Option (AllocState × Option Nat × List Event)
  | 0, _, _ => none
  | fuel + 1, s, size =>
    if size = 0 then some (s, none, [])
    else
      let size := if size ≤ MINSIZE then MINSIZE else size
      let sizeAlign := ALIGN (size + OVERHEAD)
      match findFit s.mem sizeAlign wfuel s.nextFree with
      | none => none
      | some (some avail) => some (setAllocated s avail sizeAlign, some avail, [])
      | some none =>
        let r := extend ps mapRes s sizeAlign
        match mm_malloc ps mapRes wfuel fuel r.1 size with
        | none => none
        | some (s2, p, evs2) => some (s2, p, r.2 ++ evs2)

/-! ### Explicit-free-list representation

The EFL is a doubly-linked list threaded through the payload words of free
blocks.  `chainFromB m p L t` says that following `next` links from pointer
`p` visits exactly the payload addresses in `L` and ends at pointer `t`;
`prevsB m x L` says every node's `prev` field points at its list
predecessor (`x` before the first node).  `linkCellsB L q` says the word
address `q` is one of the `prev`/`next` link cells of the nodes in `L`. -/

def chainFromB (m : Mem) : Nat → List Nat → Nat → Bool
  | p, [], t => p == t
  | p, a :: L, t => p == a && chainFromB m (GET m (a + 8)) L t

/-- Forward walk from `p` visits exactly `L` and terminates at `NULL`. -/
def chainB (m : Mem) (p : Nat) (L : List Nat) : Bool := chainFromB m p L 0

def prevsB (m : Mem) : Nat → List Nat → Bool
  | _, [] => true
  | x, a :: L => GET m a == x && prevsB m a L

def linkCellsB (L : List Nat) (q : Nat) : Bool := L.any fun a => q == a || q == a + 8

/-- Node addresses are nonnull, 16-aligned payload addresses; with
`List.Nodup` this makes the link cells of distinct nodes disjoint. -/
def alignedOkB (L : List Nat) : Bool := L.all fun a => a != 0 && a % 16 == 0

/-- Well-formedness of the explicit free list: the in-memory doubly-linked
structure rooted at `nextFree` represents exactly the node list `L`. -/
def eflWF (s : AllocState) (L : List Nat) : Prop :=
  chainB s.mem s.nextFree L = true ∧ prevsB s.mem 0 L = true ∧
    L.Nodup ∧ alignedOkB L = true

/-! ### Concrete fixtures for witnesses and counterexamples -/

/-- A page provider granting a single 40960-byte region at address 65536. -/
def provOnce : Nat → Option Nat := fun b => if b = 40960 then some 65536 else none

/-- A page provider that refuses every request. -/
def failProv : Nat → Option Nat := fun _ => none

/-- Process memory holding arbitrary junk (7) in every word. -/
def junkMem : Mem := fun _ => 7

/-- Process memory holding zero in every word. -/
def zeroMem : Mem := fun _ => 0

/-- The allocator state right after a successful `mm_init` with page size
4096, the provider having granted the primordial region at 65536. -/
def initState : AllocState := (mm_init 4096 provOnce zeroMem).1

/-- Heap words for a two-node free list: node 96 has block size 32 (header
at 88) and `next` link 160 (at 104); node 160 has block size 64 (header at
152) and `next` link 0 (at 168). -/
def fitMem : Mem := PUT (PUT (PUT (PUT zeroMem 88 32) 104 160) 152 64) 168 0

/-- A state whose EFL is the two-node list `[96, 160]`. -/
def fitState : AllocState := { mem := fitMem, nextFree := 96, basePage := 0 }

/-- A single free block of size 96 at payload 32 (header at 24), forming a
one-node EFL. -/
def c4State : AllocState := { mem := PUT zeroMem 24 96, nextFree := 32, basePage := 0 }

/-- A free block of size 32 at payload 64 whose neighbours are both
allocated: a prologue-sized predecessor `(16,1)` and an epilogue-like
successor `(0,1)`; the EFL is empty. -/
def c3Mem : Mem := PUT (PUT (PUT (PUT (PUT zeroMem 56 32) 80 32) 48 17) 40 17) 88 1

/-- State for the coalesce case-analysis witness. -/
def c3State : AllocState := { mem := c3Mem, nextFree := 0, basePage := 0 }

/-- A non-primordial region at base 4096 holding a single allocated block
of size 48 at payload 4128: prologue `(16,1)` at 4104/4112, block tags
`(48,1)` at 4120/4160, epilogue `(0,1)` at 4168; the EFL is empty. -/
def c5Mem : Mem :=
  PUT (PUT (PUT (PUT (PUT zeroMem 4104 17) 4112 17) 4120 49) 4160 49) 4168 1

/-- State for the release-unmaps-empty-region witness; `basePage = 0`, so
the region at 4096 is not primordial. -/
def c5State : AllocState := { mem := c5Mem, nextFree := 0, basePage := 0 }

/-! ### Arithmetic bridges for the bit-level macros -/

theorem lor_one_of_even (s : Nat) (h : s % 2 = 0) : s ||| 1 = s + 1 := by
  apply Nat.eq_of_testBit_eq
  intro i
  cases i with
  | zero =>
    rw [Nat.testBit_lor]
    simp [Nat.testBit_zero]
    omega
  | succ j =>
    rw [Nat.testBit_lor]
    rw [Nat.testBit_succ, Nat.testBit_succ, Nat.testBit_succ]
    have h1 : (1 : Nat) / 2 = 0 := rfl
    rw [h1]
    simp [Nat.zero_testBit]
    congr 1
    omega

theorem pack_zero (s : Nat) : PACK s 0 = s := Nat.or_zero s

theorem pack_one (s : Nat) (h : 16 ∣ s) : PACK s 1 = s + 1 := by
  unfold PACK
  exact lor_one_of_even s (by omega)

theorem getSize_pack_zero (s : Nat) (h : 16 ∣ s) : GET_SIZE (PACK s 0) = s := by
  rw [pack_zero]
  unfold GET_SIZE
  omega

theorem getSize_pack_one (s : Nat) (h : 16 ∣ s) : GET_SIZE (PACK s 1) = s := by
  rw [pack_one s h]
  unfold GET_SIZE
  omega

theorem getAlloc_pack_zero (s : Nat) (h : 16 ∣ s) : GET_ALLOC (PACK s 0) = 0 := by
  rw [pack_zero]
  unfold GET_ALLOC
  omega

theorem getAlloc_pack_one (s : Nat) (h : 16 ∣ s) : GET_ALLOC (PACK s 1) = 1 := by
  rw [pack_one s h]
  unfold GET_ALLOC
  omega

theorem getSize_pack (s a : Nat) (h : 16 ∣ s) (ha : a ≤ 1) : GET_SIZE (PACK s a) = s := by
  rcases Nat.le_one_iff_eq_zero_or_eq_one.mp ha with rfl | rfl
  · exact getSize_pack_zero s h
  · exact getSize_pack_one s h

theorem getAlloc_pack (s a : Nat) (h : 16 ∣ s) (ha : a ≤ 1) : GET_ALLOC (PACK s a) = a := by
  rcases Nat.le_one_iff_eq_zero_or_eq_one.mp ha with rfl | rfl
  · exact getAlloc_pack_zero s h
  · exact getAlloc_pack_one s h

theorem GET_PUT_eq (m : Mem) (p v : Nat) : GET (PUT m p v) p = v := by
  simp [GET, PUT]

theorem GET_PUT_ne (m : Mem) (p v q : Nat) (h : q ≠ p) : GET (PUT m p v) q = GET m q := by
  simp [GET, PUT, h]

/-! ### List-representation lemmas -/

theorem chainFromB_frame (m m' : Mem) (L : List Nat) :
    ∀ p t, (∀ a ∈ L, GET m' (a + 8) = GET m (a + 8)) →
      chainFromB m' p L t = chainFromB m p L t := by
  induction L with
  | nil => intro p t _; rfl
  | cons a L ih =>
    intro p t h
    unfold chainFromB
    rw [h a (List.mem_cons_self a L)]
    rw [ih (GET m (a + 8)) t (fun x hx => h x (List.mem_cons_of_mem a hx))]

theorem chainFromB_append (m : Mem) (L1 L2 : List Nat) :
    ∀ p t, chainFromB m p (L1 ++ L2) t =
      (chainFromB m p L1 (L2.headD t) && chainFromB m (L2.headD t) L2 t) := by
  induction L1 with
  | nil =>
    intro p t
    cases L2 with
    | nil => simp [chainFromB]
    | cons a L2 =>
      show ((p == a) && chainFromB m (GET m (a + 8)) L2 t) =
        ((p == a) && ((a == a) && chainFromB m (GET m (a + 8)) L2 t))
      simp
  | cons b L1 ih =>
    intro p t
    show ((p == b) && chainFromB m (GET m (b + 8)) (L1 ++ L2) t) =
      (((p == b) && chainFromB m (GET m (b + 8)) L1 (L2.headD t)) &&
        chainFromB m (L2.headD t) L2 t)
    rw [ih, Bool.and_assoc]

theorem prevsB_frame (m m' : Mem) (L : List Nat) :
    ∀ x, (∀ a ∈ L, GET m' a = GET m a) → prevsB m' x L = prevsB m x L := by
  induction L with
  | nil => intro x _; rfl
  | cons a L ih =>
    intro x h
    unfold prevsB
    rw [h a (List.mem_cons_self a L)]
    rw [ih a (fun x hx => h x (List.mem_cons_of_mem a hx))]

theorem prevsB_append (m : Mem) (L1 L2 : List Nat) :
    ∀ x, prevsB m x (L1 ++ L2) = (prevsB m x L1 && prevsB m (L1.getLastD x) L2) := by
  induction L1 with
  | nil => intro x; simp [prevsB]
  | cons a L1 ih =>
    intro x
    rw [List.getLastD_cons]
    show ((GET m a == x) && prevsB m a (L1 ++ L2)) =
      (((GET m a == x) && prevsB m a L1) && prevsB m (L1.getLastD a) L2)
    rw [ih a, Bool.and_assoc]

theorem linkCells_false (L : List Nat) (q : Nat) (h : linkCellsB L q = false) :
    ∀ a ∈ L, q ≠ a ∧ q ≠ a + 8 := by
  intro a ha
  unfold linkCellsB at h
  rw [List.any_eq_false] at h
  have := h a ha
  constructor <;> (intro e; subst e; simp at this)

theorem alignedOk_mem (L : List Nat) (a : Nat) (h : alignedOkB L = true) (ha : a ∈ L) :
    a ≠ 0 ∧ a % 16 = 0 := by
  unfold alignedOkB at h
  rw [List.all_eq_true] at h
  have := h a ha
  constructor
  · intro e; subst e; simp at this
  · have h2 := (Bool.and_eq_true _ _).mp this
    exact eq_of_beq h2.2

/-- `addEFLNode` pushes a fresh node on the front of the represented list,
touching only link cells of the new front. -/
theorem addEFL_spec (s : AllocState) (L : List Nat) (b : Nat)
    (hwf : eflWF s L) (hbL : b ∉ L) (hb0 : b ≠ 0) (hb16 : b % 16 = 0) :
    eflWF (addEFLNode s b) (b :: L) ∧
    (∀ q, linkCellsB (b :: L) q = false → GET (addEFLNode s b).mem q = GET s.mem q) ∧
    (addEFLNode s b).nextFree = b ∧
    (addEFLNode s b).basePage = s.basePage := by
  obtain ⟨hc, hp, hnd, hal⟩ := hwf
  cases L with
  | nil =>
    have h0 : (s.nextFree == 0) = true := hc
    have h0' : s.nextFree = 0 := eq_of_beq h0
    unfold addEFLNode
    rw [if_neg (by omega)]
    refine ⟨⟨?_, ?_, ?_, ?_⟩, ?_, rfl, rfl⟩
    · show ((b == b) && ((GET (PUT (PUT s.mem (b + 8) 0) b 0) (b + 8)) == 0)) = true
      rw [GET_PUT_ne _ _ _ _ (by omega), GET_PUT_eq]
      simp
    · show ((GET (PUT (PUT s.mem (b + 8) 0) b 0) b == 0) && true) = true
      rw [GET_PUT_eq]
      simp
    · simp
    · simp [alignedOkB, hb0, hb16]
    · intro q hq
      obtain ⟨hq1, hq2⟩ := linkCells_false _ q hq b (List.mem_cons_self b [])
      show PUT (PUT s.mem (b + 8) 0) b 0 q = s.mem q
      simp [PUT, hq1, hq2]
  | cons hd L' =>
    have hch := (Bool.and_eq_true _ _).mp
      (show ((s.nextFree == hd) && chainFromB s.mem (GET s.mem (hd + 8)) L' 0) = true from hc)
    have hnf : s.nextFree = hd := eq_of_beq hch.1
    obtain ⟨hhd0, hhd16⟩ := alignedOk_mem _ hd hal (List.mem_cons_self hd L')
    have hbne : b ≠ hd := fun e => hbL (e ▸ List.mem_cons_self hd L')
    have hpp := (Bool.and_eq_true _ _).mp
      (show ((GET s.mem hd == 0) && prevsB s.mem hd L') = true from hp)
    have hstate : addEFLNode s b =
        { s with mem := PUT (PUT (PUT s.mem b 0) (b + 8) hd) hd b, nextFree := b } := by
      unfold addEFLNode
      rw [if_pos (show s.nextFree ≠ 0 by omega)]
      rw [hnf]
    rw [hstate]
    set m3 : Mem := PUT (PUT (PUT s.mem b 0) (b + 8) hd) hd b with hm3
    have hLal : ∀ a ∈ L', a ≠ 0 ∧ a % 16 = 0 := fun a ha =>
      alignedOk_mem _ a hal (List.mem_cons_of_mem hd ha)
    have hLb : ∀ a ∈ L', a ≠ b := fun a ha e => hbL (e ▸ List.mem_cons_of_mem hd ha)
    have hfr1 : ∀ a ∈ L', GET m3 (a + 8) = GET s.mem (a + 8) := by
      intro a ha
      obtain ⟨ha0, ha16⟩ := hLal a ha
      have hab := hLb a ha
      rw [hm3, GET_PUT_ne _ _ _ _ (by omega), GET_PUT_ne _ _ _ _ (by omega),
        GET_PUT_ne _ _ _ _ (by omega)]
    have hfr2 : ∀ a ∈ L', GET m3 a = GET s.mem a := by
      intro a ha
      obtain ⟨ha0, ha16⟩ := hLal a ha
      have hab := hLb a ha
      have hahd : a ≠ hd := by
        intro e
        exact (List.nodup_cons.mp hnd).1 (e ▸ ha)
      rw [hm3, GET_PUT_ne _ _ _ _ hahd, GET_PUT_ne _ _ _ _ (by omega),
        GET_PUT_ne _ _ _ _ (by omega)]
    refine ⟨⟨?_, ?_, ?_, ?_⟩, ?_, rfl, rfl⟩
    · show ((b == b) && chainFromB m3 (GET m3 (b + 8)) (hd :: L') 0) = true
      have hb8 : GET m3 (b + 8) = hd := by
        rw [hm3, GET_PUT_ne _ _ _ _ (by omega), GET_PUT_eq]
      rw [hb8]
      show ((b == b) && ((hd == hd) && chainFromB m3 (GET m3 (hd + 8)) L' 0)) = true
      have hhd8 : GET m3 (hd + 8) = GET s.mem (hd + 8) := by
        rw [hm3, GET_PUT_ne _ _ _ _ (by omega), GET_PUT_ne _ _ _ _ (by omega),
          GET_PUT_ne _ _ _ _ (by omega)]
      rw [hhd8, chainFromB_frame s.mem m3 L' (GET s.mem (hd + 8)) 0 hfr1, hch.2]
      simp
    · show ((GET m3 b == 0) && ((GET m3 hd == b) && prevsB m3 hd L')) = true
      have hgb : GET m3 b = 0 := by
        rw [hm3, GET_PUT_ne _ _ _ _ hbne, GET_PUT_ne _ _ _ _ (by omega), GET_PUT_eq]
      have hgh : GET m3 hd = b := by
        rw [hm3, GET_PUT_eq]
      rw [hgb, hgh, prevsB_frame s.mem m3 L' hd hfr2, hpp.2]
      simp
    · exact List.nodup_cons.mpr ⟨hbL, hnd⟩
    · show alignedOkB (b :: hd :: L') = true
      unfold alignedOkB
      rw [List.all_cons]
      unfold alignedOkB at hal
      rw [hal]
      simp [hb0, hb16]
    · intro q hq
      have hfb := linkCells_false _ q hq b (List.mem_cons_self _ _)
      have hfh := linkCells_false _ q hq hd (List.mem_cons_of_mem _ (List.mem_cons_self _ _))
      show GET m3 q = GET s.mem q
      rw [hm3, GET_PUT_ne _ _ _ _ hfh.1, GET_PUT_ne _ _ _ _ hfb.2, GET_PUT_ne _ _ _ _ hfb.1]

/-- `removeEFLNode` splices a member out of the represented list, touching
only link cells of the list's nodes. -/
theorem removeEFL_spec (s : AllocState) (L : List Nat) (b : Nat)
    (hwf : eflWF s L) (hb : b ∈ L) :
    eflWF (removeEFLNode s b) (L.erase b) ∧
    (∀ q, linkCellsB L q = false → GET (removeEFLNode s b).mem q = GET s.mem q) ∧
    (removeEFLNode s b).basePage = s.basePage := by
  obtain ⟨hc, hp, hnd, hal⟩ := hwf
  obtain ⟨L1, L2, rfl⟩ := List.append_of_mem hb
  have hnd3 := List.nodup_append.mp hnd
  have hbL1 : b ∉ L1 := fun h => hnd3.2.2 h (List.mem_cons_self b L2)
  have hbL2 : b ∉ L2 := (List.nodup_cons.mp hnd3.2.1).1
  have herase : (L1 ++ b :: L2).erase b = L1 ++ L2 := by
    rw [List.erase_append_right _ hbL1, List.erase_cons_head]
  rw [herase]
  have hmem1 : ∀ a ∈ L1, a ≠ 0 ∧ a % 16 = 0 := fun a ha =>
    alignedOk_mem _ a hal (List.mem_append_left _ ha)
  have hmem2 : ∀ a ∈ L2, a ≠ 0 ∧ a % 16 = 0 := fun a ha =>
    alignedOk_mem _ a hal (List.mem_append_right _ (List.mem_cons_of_mem _ ha))
  have hb16 : b % 16 = 0 := (alignedOk_mem _ b hal hb).2
  have hal' : alignedOkB (L1 ++ L2) = true := by
    simp only [alignedOkB, List.all_append, List.all_cons, Bool.and_eq_true] at hal ⊢
    exact ⟨hal.1, hal.2.2⟩
  have hnd' : (L1 ++ L2).Nodup :=
    hnd.sublist ((List.sublist_cons_self b L2).append_left L1)
  have hc' : (chainFromB s.mem s.nextFree L1 b &&
      chainFromB s.mem b (b :: L2) 0) = true := by
    have h0 : chainFromB s.mem s.nextFree (L1 ++ b :: L2) 0 = true := hc
    rw [chainFromB_append s.mem L1 (b :: L2) s.nextFree 0] at h0
    exact h0
  have hc1 : chainFromB s.mem s.nextFree L1 b = true := ((Bool.and_eq_true _ _).mp hc').1
  have hc3 : chainFromB s.mem (GET s.mem (b + 8)) L2 0 = true :=
    ((Bool.and_eq_true _ _).mp (show ((b == b) &&
      chainFromB s.mem (GET s.mem (b + 8)) L2 0) = true from
        ((Bool.and_eq_true _ _).mp hc').2)).2
  have hp' : (prevsB s.mem 0 L1 && prevsB s.mem (L1.getLastD 0) (b :: L2)) = true := by
    have h0 := hp
    rw [prevsB_append s.mem L1 (b :: L2) 0] at h0
    exact h0
  have hp1 : prevsB s.mem 0 L1 = true := ((Bool.and_eq_true _ _).mp hp').1
  have hp2 := ((Bool.and_eq_true _ _).mp hp').2
  have hpbv : GET s.mem b = L1.getLastD 0 :=
    eq_of_beq ((Bool.and_eq_true _ _).mp (show ((GET s.mem b == L1.getLastD 0) &&
      prevsB s.mem b L2) = true from hp2)).1
  have hp3 : prevsB s.mem b L2 = true :=
    ((Bool.and_eq_true _ _).mp (show ((GET s.mem b == L1.getLastD 0) &&
      prevsB s.mem b L2) = true from hp2)).2
  rcases List.eq_nil_or_concat L1 with hL1 | ⟨L1p, p0, hL1c⟩
  · subst hL1
    have hpv : GET s.mem b = 0 := hpbv
    have hnfb : s.nextFree = b := eq_of_beq hc1
    cases L2 with
    | nil =>
      have hnv : GET s.mem (b + 8) = 0 := eq_of_beq hc3
      have hrm : removeEFLNode s b = { s with nextFree := 0 } := by
        unfold removeEFLNode
        rw [hpv, hnv]
        simp
      rw [hrm]
      exact ⟨⟨rfl, rfl, List.nodup_nil, rfl⟩, fun q _ => rfl, rfl⟩
    | cons c L2p =>
      obtain ⟨hc0, hc16⟩ := hmem2 c (List.mem_cons_self c L2p)
      have hnv : GET s.mem (b + 8) = c :=
        eq_of_beq ((Bool.and_eq_true _ _).mp (show ((GET s.mem (b + 8) == c) &&
          chainFromB s.mem (GET s.mem (c + 8)) L2p 0) = true from hc3)).1
      have hc4 : chainFromB s.mem (GET s.mem (c + 8)) L2p 0 = true :=
        ((Bool.and_eq_true _ _).mp (show ((GET s.mem (b + 8) == c) &&
          chainFromB s.mem (GET s.mem (c + 8)) L2p 0) = true from hc3)).2
      have hp4 : prevsB s.mem c L2p = true :=
        ((Bool.and_eq_true _ _).mp (show ((GET s.mem c == b) &&
          prevsB s.mem c L2p) = true from hp3)).2
      have hndc := List.nodup_cons.mp (List.nodup_cons.mp hnd3.2.1).2
      have hrm : removeEFLNode s b = { s with mem := PUT s.mem c 0, nextFree := c } := by
        unfold removeEFLNode
        rw [hpv, hnv]
        rw [if_neg (by omega), if_neg (by omega), if_pos hc0]
      rw [hrm]
      refine ⟨⟨?_, ?_, ?_, ?_⟩, ?_, rfl⟩
      · show ((c == c) && chainFromB (PUT s.mem c 0) (GET (PUT s.mem c 0) (c + 8)) L2p 0) = true
        rw [GET_PUT_ne _ _ _ _ (by omega)]
        rw [chainFromB_frame s.mem (PUT s.mem c 0) L2p (GET s.mem (c + 8)) 0 ?hfr]
        case hfr =>
          intro a ha
          obtain ⟨ha0, ha16⟩ := hmem2 a (List.mem_cons_of_mem c ha)
          exact GET_PUT_ne _ _ _ _ (by omega)
        rw [hc4]
        simp
      · show ((GET (PUT s.mem c 0) c == 0) && prevsB (PUT s.mem c 0) c L2p) = true
        rw [GET_PUT_eq]
        rw [prevsB_frame s.mem (PUT s.mem c 0) L2p c ?hfr2]
        case hfr2 =>
          intro a ha
          exact GET_PUT_ne _ _ _ _ (fun e => hndc.1 (e ▸ ha))
        rw [hp4]
        simp
      · simpa using (List.nodup_cons.mp hnd3.2.1).2
      · exact hal'
      · intro q hq
        have hfc := linkCells_false _ q hq c
          (List.mem_append_right _ (List.mem_cons_of_mem _ (List.mem_cons_self _ _)))
        exact GET_PUT_ne _ _ _ _ hfc.1
  · have hL1 : L1 = L1p ++ [p0] := by simpa [List.concat_eq_append] using hL1c
    subst hL1
    obtain ⟨hp00, hp016⟩ := hmem1 p0 (List.mem_append_right _ (List.mem_cons_self _ _))
    have hpv : GET s.mem b = p0 := by
      rw [hpbv]
      simp [List.getLastD_concat]
    have hndL1 := List.nodup_append.mp hnd3.1
    have hL1pne : ∀ a ∈ L1p, a ≠ p0 := fun a ha e =>
      hndL1.2.2 ha (e ▸ List.mem_cons_self _ _)
    have hmem1p : ∀ a ∈ L1p, a ≠ 0 ∧ a % 16 = 0 := fun a ha =>
      hmem1 a (List.mem_append_left _ ha)
    have hc1' : (chainFromB s.mem s.nextFree L1p p0 &&
        chainFromB s.mem p0 (p0 :: []) b) = true := by
      have h0 := hc1
      rw [chainFromB_append s.mem L1p [p0] s.nextFree b] at h0
      exact h0
    have hc1a : chainFromB s.mem s.nextFree L1p p0 = true := ((Bool.and_eq_true _ _).mp hc1').1
    have hp1' : (prevsB s.mem 0 L1p && prevsB s.mem (L1p.getLastD 0) [p0]) = true := by
      have h0 := hp1
      rw [prevsB_append s.mem L1p [p0] 0] at h0
      exact h0
    have hp1a : prevsB s.mem 0 L1p = true := ((Bool.and_eq_true _ _).mp hp1').1
    have hp1b : GET s.mem p0 = L1p.getLastD 0 :=
      eq_of_beq ((Bool.and_eq_true _ _).mp (show ((GET s.mem p0 == L1p.getLastD 0) &&
        true) = true from ((Bool.and_eq_true _ _).mp hp1').2)).1
    cases L2 with
    | nil =>
      have hnv : GET s.mem (b + 8) = 0 := eq_of_beq hc3
      have hrm : removeEFLNode s b = { s with mem := PUT s.mem (p0 + 8) 0 } := by
        unfold removeEFLNode
        rw [hpv, hnv]
        rw [if_neg (by omega), if_pos hp00]
      rw [hrm]
      refine ⟨⟨?_, ?_, ?_, ?_⟩, ?_, rfl⟩
      · show chainFromB (PUT s.mem (p0 + 8) 0) s.nextFree ((L1p ++ [p0]) ++ []) 0 = true
        rw [List.append_nil]
        rw [chainFromB_append (PUT s.mem (p0 + 8) 0) L1p [p0] s.nextFree 0]
        have hseg : chainFromB (PUT s.mem (p0 + 8) 0) s.nextFree L1p p0 = true := by
          rw [chainFromB_frame s.mem (PUT s.mem (p0 + 8) 0) L1p s.nextFree p0 ?hfr3]
          case hfr3 =>
            intro a ha
            exact GET_PUT_ne _ _ _ _ (fun e => hL1pne a ha (by omega))
          exact hc1a
        have htl : chainFromB (PUT s.mem (p0 + 8) 0) p0 [p0] 0 = true := by
          show ((p0 == p0) && (GET (PUT s.mem (p0 + 8) 0) (p0 + 8) == 0)) = true
          rw [GET_PUT_eq]
          simp
        show (chainFromB (PUT s.mem (p0 + 8) 0) s.nextFree L1p (List.headD [p0] 0) &&
          chainFromB (PUT s.mem (p0 + 8) 0) (List.headD [p0] 0) [p0] 0) = true
        rw [show List.headD [p0] 0 = p0 from rfl, hseg, htl]
        simp
      · show prevsB (PUT s.mem (p0 + 8) 0) 0 ((L1p ++ [p0]) ++ []) = true
        rw [List.append_nil]
        rw [prevsB_append (PUT s.mem (p0 + 8) 0) L1p [p0] 0]
        have hseg : prevsB (PUT s.mem (p0 + 8) 0) 0 L1p = true := by
          rw [prevsB_frame s.mem (PUT s.mem (p0 + 8) 0) L1p 0 ?hfr4]
          case hfr4 =>
            intro a ha
            obtain ⟨ha0, ha16⟩ := hmem1p a ha
            exact GET_PUT_ne _ _ _ _ (by omega)
          exact hp1a
        have htl : prevsB (PUT s.mem (p0 + 8) 0) (L1p.getLastD 0) [p0] = true := by
          show ((GET (PUT s.mem (p0 + 8) 0) p0 == L1p.getLastD 0) && true) = true
          rw [GET_PUT_ne _ _ _ _ (by omega), hp1b]
          simp
        rw [hseg, htl]
        simp
      · simpa using hnd'
      · simpa using hal'
      · intro q hq
        have hfp := linkCells_false _ q hq p0
          (List.mem_append_left _ (List.mem_append_right _ (List.mem_cons_self _ _)))
        exact GET_PUT_ne _ _ _ _ hfp.2
    | cons c L2p =>
      obtain ⟨hc0, hc16⟩ := hmem2 c (List.mem_cons_self c L2p)
      have hnv : GET s.mem (b + 8) = c :=
        eq_of_beq ((Bool.and_eq_true _ _).mp (show ((GET s.mem (b + 8) == c) &&
          chainFromB s.mem (GET s.mem (c + 8)) L2p 0) = true from hc3)).1
      have hc4 : chainFromB s.mem (GET s.mem (c + 8)) L2p 0 = true :=
        ((Bool.and_eq_true _ _).mp (show ((GET s.mem (b + 8) == c) &&
          chainFromB s.mem (GET s.mem (c + 8)) L2p 0) = true from hc3)).2
      have hp4 : prevsB s.mem c L2p = true :=
        ((Bool.and_eq_true _ _).mp (show ((GET s.mem c == b) &&
          prevsB s.mem c L2p) = true from hp3)).2
      have hndc := List.nodup_cons.mp (List.nodup_cons.mp hnd3.2.1).2
      have hp0c : p0 ≠ c := fun e =>
        hnd3.2.2 (List.mem_append_right _ (List.mem_cons_self _ _))
          (e ▸ List.mem_cons_of_mem _ (List.mem_cons_self _ _))
      have hL2pp0 : ∀ a ∈ L2p, a ≠ p0 := fun a ha e =>
        hnd3.2.2 (List.mem_append_right _ (List.mem_cons_self _ _))
          (e ▸ List.mem_cons_of_mem _ (List.mem_cons_of_mem _ ha))
      have hL1pc : ∀ a ∈ L1p, a ≠ c := fun a ha e =>
        hnd3.2.2 (List.mem_append_left _ ha)
          (e ▸ List.mem_cons_of_mem _ (List.mem_cons_self _ _))
      have hmem2p : ∀ a ∈ L2p, a ≠ 0 ∧ a % 16 = 0 := fun a ha =>
        hmem2 a (List.mem_cons_of_mem c ha)
      set m2 : Mem := PUT (PUT s.mem (p0 + 8) c) c p0 with hm2
      have hrm : removeEFLNode s b = { s with mem := m2 } := by
        unfold removeEFLNode
        rw [hpv, hnv]
        rw [if_pos ⟨hp00, hc0⟩]
      rw [hrm]
      refine ⟨⟨?_, ?_, ?_, ?_⟩, ?_, rfl⟩
      · show chainFromB m2 s.nextFree ((L1p ++ [p0]) ++ c :: L2p) 0 = true
        rw [chainFromB_append m2 (L1p ++ [p0]) (c :: L2p) s.nextFree 0]
        rw [show List.headD (c :: L2p) 0 = c from rfl]
        rw [chainFromB_append m2 L1p [p0] s.nextFree c]
        rw [show List.headD [p0] c = p0 from rfl]
        have hseg1 : chainFromB m2 s.nextFree L1p p0 = true := by
          rw [chainFromB_frame s.mem m2 L1p s.nextFree p0 ?hfr5]
          case hfr5 =>
            intro a ha
            obtain ⟨ha0, ha16⟩ := hmem1p a ha
            rw [hm2, GET_PUT_ne _ _ _ _ (by omega),
              GET_PUT_ne _ _ _ _ (fun e => hL1pne a ha (by omega))]
          exact hc1a
        have hseg2 : chainFromB m2 p0 [p0] c = true := by
          show ((p0 == p0) && (GET m2 (p0 + 8) == c)) = true
          have : GET m2 (p0 + 8) = c := by
            rw [hm2, GET_PUT_ne _ _ _ _ (by omega), GET_PUT_eq]
          rw [this]
          simp
        have hseg3 : chainFromB m2 c (c :: L2p) 0 = true := by
          show ((c == c) && chainFromB m2 (GET m2 (c + 8)) L2p 0) = true
          have hcc : GET m2 (c + 8) = GET s.mem (c + 8) := by
            rw [hm2, GET_PUT_ne _ _ _ _ (by omega), GET_PUT_ne _ _ _ _ (by omega)]
          rw [hcc]
          rw [chainFromB_frame s.mem m2 L2p (GET s.mem (c + 8)) 0 ?hfr6]
          case hfr6 =>
            intro a ha
            obtain ⟨ha0, ha16⟩ := hmem2p a ha
            rw [hm2, GET_PUT_ne _ _ _ _ (by omega),
              GET_PUT_ne _ _ _ _ (fun e => hL2pp0 a ha (by omega))]
          rw [hc4]
          simp
        rw [hseg1, hseg2, hseg3]
        simp
      · show prevsB m2 0 ((L1p ++ [p0]) ++ c :: L2p) = true
        rw [prevsB_append m2 (L1p ++ [p0]) (c :: L2p) 0]
        rw [show (L1p ++ [p0]).getLastD 0 = p0 by simp [List.getLastD_concat]]
        rw [prevsB_append m2 L1p [p0] 0]
        have hseg1 : prevsB m2 0 L1p = true := by
          rw [prevsB_frame s.mem m2 L1p 0 ?hfr7]
          case hfr7 =>
            intro a ha
            obtain ⟨ha0, ha16⟩ := hmem1p a ha
            rw [hm2, GET_PUT_ne _ _ _ _ (hL1pc a ha), GET_PUT_ne _ _ _ _ (by omega)]
          exact hp1a
        have hseg2 : prevsB m2 (L1p.getLastD 0) [p0] = true := by
          show ((GET m2 p0 == L1p.getLastD 0) && true) = true
          have : GET m2 p0 = GET s.mem p0 := by
            rw [hm2, GET_PUT_ne _ _ _ _ hp0c, GET_PUT_ne _ _ _ _ (by omega)]
          rw [this, hp1b]
          simp
        have hseg3 : prevsB m2 p0 (c :: L2p) = true := by
          show ((GET m2 c == p0) && prevsB m2 c L2p) = true
          have : GET m2 c = p0 := by rw [hm2, GET_PUT_eq]
          rw [this]
          rw [prevsB_frame s.mem m2 L2p c ?hfr8]
          case hfr8 =>
            intro a ha
            obtain ⟨ha0, ha16⟩ := hmem2p a ha
            rw [hm2, GET_PUT_ne _ _ _ _ (fun e => hndc.1 (by rw [← e]; exact ha)),
              GET_PUT_ne _ _ _ _ (by omega)]
          rw [hp4]
          simp
        rw [hseg1, hseg2, hseg3]
        simp
      · exact hnd'
      · exact hal'
      · intro q hq
        have hfp := linkCells_false _ q hq p0
          (List.mem_append_left _ (List.mem_append_right _ (List.mem_cons_self _ _)))
        have hfc := linkCells_false _ q hq c
          (List.mem_append_right _ (List.mem_cons_of_mem _ (List.mem_cons_self _ _)))
        show GET m2 q = GET s.mem q
        rw [hm2, GET_PUT_ne _ _ _ _ hfc.1, GET_PUT_ne _ _ _ _ hfp.2]

theorem linkCells_mono (L' L : List Nat) (q : Nat) (hsub : ∀ x ∈ L', x ∈ L)
    (h : linkCellsB L q = false) : linkCellsB L' q = false := by
  unfold linkCellsB at h ⊢
  rw [List.any_eq_false] at h ⊢
  intro x hx
  exact h x (hsub x hx)

theorem linkCells_tail (x : Nat) (L : List Nat) (q : Nat)
    (h : linkCellsB (x :: L) q = false) : linkCellsB L q = false :=
  linkCells_mono L (x :: L) q (fun y hy => List.mem_cons_of_mem x hy) h

/-- Writing a word outside the EFL's link cells preserves the list
representation. -/
theorem eflWF_put (s : AllocState) (L : List Nat) (p v : Nat)
    (hwf : eflWF s L) (hp : linkCellsB L p = false) :
    eflWF { s with mem := PUT s.mem p v } L := by
  obtain ⟨hc, hpr, hnd, hal⟩ := hwf
  refine ⟨?_, ?_, hnd, hal⟩
  · show chainFromB (PUT s.mem p v) s.nextFree L 0 = true
    rw [chainFromB_frame s.mem (PUT s.mem p v) L s.nextFree 0 ?hfr]
    case hfr =>
      intro a ha
      exact GET_PUT_ne _ _ _ _ (fun e => (linkCells_false L p hp a ha).2 e.symm)
    exact hc
  · show prevsB (PUT s.mem p v) 0 L = true
    rw [prevsB_frame s.mem (PUT s.mem p v) L 0 ?hfr2]
    case hfr2 =>
      intro a ha
      exact GET_PUT_ne _ _ _ _ (fun e => (linkCells_false L p hp a ha).1 e.symm)
    exact hpr

/-! ### Page-alignment arithmetic -/

theorem pagealign_dvd (ps n : Nat) : ps ∣ PAGEALIGN ps n := by
  have h := Nat.div_add_mod (n + ps - 1) ps
  exact ⟨(n + ps - 1) / ps, by unfold PAGEALIGN; omega⟩

theorem pagealign_ge (ps n : Nat) (hps : 0 < ps) (hn : 0 < n) : n ≤ PAGEALIGN ps n := by
  have h := Nat.mod_lt (n + ps - 1) hps
  unfold PAGEALIGN
  omega

theorem pagealign_of_dvd (ps n : Nat) (hps : 0 < ps) (h : n % ps = 0) :
    PAGEALIGN ps n = n := by
  obtain ⟨k, rfl⟩ : ∃ k, n = ps * k :=
    ⟨n / ps, (Nat.mul_div_cancel' (Nat.dvd_of_mod_eq_zero h)).symm⟩
  have h1 : (ps * k + ps - 1) % ps = ps - 1 := by
    have h2 : ps * k + ps - 1 = (ps - 1) + k * ps := by ring_nf; omega
    rw [h2, Nat.add_mul_mod_self_right, Nat.mod_eq_of_lt (by omega)]
  unfold PAGEALIGN
  omega

theorem pagealign_ge_ps (ps n : Nat) (hps : 0 < ps) (hn : 0 < n) :
    ps ≤ PAGEALIGN ps n := by
  have h1 := pagealign_ge ps n hps hn
  exact Nat.le_of_dvd (by omega) (pagealign_dvd ps n)

/-- The size actually passed to the page provider is `PAGEALIGN` of the
request times the page ratio, also when the request was already
page-aligned. -/
theorem extend_request (ps s0 : Nat) (hps : 0 < ps) :
    (if s0 % ps ≠ 0 then PAGEALIGN ps s0 else s0) = PAGEALIGN ps s0 := by
  by_cases h : s0 % ps = 0
  · rw [if_neg (by omega), pagealign_of_dvd ps s0 hps h]
  · rw [if_pos h]

/-- On a successful `mem_map`, `extend` reduces to `extendInit` on the
ratio-scaled page-aligned size. -/
theorem extend_eq (ps s0 addr : Nat) (mapRes : Nat → Option Nat) (s : AllocState)
    (hps : 0 < ps)
    (hmap : mapRes (PAGEALIGN ps s0 * PAGERATIO) = some addr) :
    extend ps mapRes s s0 =
      (extendInit s addr (PAGEALIGN ps s0 * PAGERATIO),
       [Event.mapCall (PAGEALIGN ps s0 * PAGERATIO) (some addr)]) := by
  unfold extend
  simp only [extend_request ps s0 hps]
  simp only [hmap]

/-- A failed `mem_map` leaves the allocator state untouched. -/
theorem extend_fail (ps s0 : Nat) (mapRes : Nat → Option Nat) (s : AllocState)
    (hmap : mapRes ((if s0 % ps ≠ 0 then PAGEALIGN ps s0 else s0) * PAGERATIO) = none) :
    extend ps mapRes s s0 =
      (s, [Event.mapCall ((if s0 % ps ≠ 0 then PAGEALIGN ps s0 else s0) * PAGERATIO) none]) := by
  unfold extend
  simp only [hmap]

theorem addEFLNode_basePage (s : AllocState) (b : Nat) :
    (addEFLNode s b).basePage = s.basePage := by
  unfold addEFLNode
  split <;> rfl

theorem addEFLNode_nextFree (s : AllocState) (b : Nat) :
    (addEFLNode s b).nextFree = b := by
  unfold addEFLNode
  split <;> rfl

theorem addEFLNode_mem (s : AllocState) (b : Nat) :
    (addEFLNode s b).mem =
      (if s.nextFree ≠ 0
        then PUT (PUT (PUT s.mem b 0) (b + 8) s.nextFree) s.nextFree b
        else PUT (PUT s.mem (b + 8) 0) b 0) := by
  unfold addEFLNode
  split <;> rfl

theorem baseIf_mem (s1 : AllocState) (pa : Nat) :
    (if s1.basePage = 0 then { s1 with basePage := pa } else s1).mem = s1.mem := by
  split <;> rfl

theorem baseIf_nextFree (s1 : AllocState) (pa : Nat) :
    (if s1.basePage = 0 then { s1 with basePage := pa } else s1).nextFree = s1.nextFree := by
  split <;> rfl

theorem baseIf_basePage (s1 : AllocState) (pa : Nat) :
    (if s1.basePage = 0 then { s1 with basePage := pa } else s1).basePage =
      (if s1.basePage = 0 then pa else s1.basePage) := by
  split <;> rfl

/-- The write of source line 234 goes through
`FTRP(pageAdr + OVERHEAD + sizeof(blockHeader))`, whose `HDRP` is the
prologue footer (value 17), so it resolves to `pageAdr + 24` — the interior
header cell, not the interior footer. -/
theorem ftrp_bug (m : Mem) (x : Nat) (h : GET m (x + OVERHEAD + 8 - 8) = 17) :
    FTRP m (x + OVERHEAD + 8) = x + 24 := by
  unfold FTRP HDRP
  rw [h]
  unfold GET_SIZE OVERHEAD
  omega

/-- The complete observable effect of `extendInit` on a fresh region
`[addr, addr + B)` disjoint from the old EFL head: the sentinel words, the
interior header (recording `B - 32`), the *unwritten* interior footer cell
(still 0), the new EFL head with its link pair, the primordial-base update
and the framing of every word outside the region. -/
theorem extendInit_spec (s : AllocState) (addr B : Nat)
    (haddr : addr % 16 = 0) (hB16 : 16 ∣ B) (hB160 : 160 ≤ B)
    (hnf16 : s.nextFree % 16 = 0)
    (hout : s.nextFree = 0 ∨ s.nextFree < addr ∨ addr + B ≤ s.nextFree) :
    GET (extendInit s addr B).mem (addr + 8) = 17 ∧
    GET (extendInit s addr B).mem (addr + 16) = 17 ∧
    GET (extendInit s addr B).mem (addr + 24) = B - 32 ∧
    GET (extendInit s addr B).mem (addr + B - 16) = 0 ∧
    GET (extendInit s addr B).mem (addr + B - 8) = 1 ∧
    (extendInit s addr B).nextFree = addr + 32 ∧
    GET (extendInit s addr B).mem (addr + 32) = 0 ∧
    GET (extendInit s addr B).mem (addr + 40) = s.nextFree ∧
    (extendInit s addr B).basePage = (if s.basePage = 0 then addr else s.basePage) ∧
    (∀ q, (q < addr ∨ addr + B ≤ q) → q ≠ s.nextFree →
      GET (extendInit s addr B).mem q = GET s.mem q) ∧
    (s.nextFree = 0 → ∀ q, (q < addr ∨ addr + B ≤ q) →
      GET (extendInit s addr B).mem q = GET s.mem q) := by
  have h17 : GET (PUT (PUT (PUT
      (fun q => if addr ≤ q ∧ q < addr + B then 0 else s.mem q)
      (addr + ALIGNMENT / 2) (PACK OVERHEAD 1))
      (addr + ALIGNMENT / 2 + 8) (PACK OVERHEAD 1))
      (addr + B - 8) (PACK 0 1))
      (addr + OVERHEAD + 8 - 8) = 17 := by
    rw [GET_PUT_ne _ _ _ _ (by unfold OVERHEAD; omega)]
    rw [show addr + OVERHEAD + 8 - 8 = addr + ALIGNMENT / 2 + 8 from by
      unfold OVERHEAD ALIGNMENT; omega]
    rw [GET_PUT_eq]
    decide
  have hstate : extendInit s addr B =
      (let m4 : Mem := PUT (PUT (PUT (PUT
        (fun q => if addr ≤ q ∧ q < addr + B then 0 else s.mem q)
        (addr + ALIGNMENT / 2) (PACK OVERHEAD 1))
        (addr + ALIGNMENT / 2 + 8) (PACK OVERHEAD 1))
        (addr + B - 8) (PACK 0 1))
        (addr + ALIGNMENT / 2 + OVERHEAD) (PACK (B - PAGEOVERHEAD) 0)
       let m5 := PUT m4 (addr + 24) (PACK (B - PAGEOVERHEAD) 0)
       let s1 := addEFLNode { s with mem := m5 } (addr + PAGEOVERHEAD)
       if s1.basePage = 0 then { s1 with basePage := addr } else s1) := by
    unfold extendInit
    simp only []
    rw [ftrp_bug _ addr (by
      rw [GET_PUT_ne _ _ _ _ (by unfold ALIGNMENT OVERHEAD; omega)]
      exact h17)]
  rw [hstate]
  simp only []
  rw [baseIf_mem, baseIf_nextFree, baseIf_basePage, addEFLNode_mem, addEFLNode_nextFree,
    addEFLNode_basePage]
  simp only []
  rw [show addr + ALIGNMENT / 2 + OVERHEAD = addr + 24 from by unfold ALIGNMENT OVERHEAD; omega,
    show addr + ALIGNMENT / 2 + 8 = addr + 16 from by unfold ALIGNMENT; omega,
    show addr + ALIGNMENT / 2 = addr + 8 from by unfold ALIGNMENT; omega,
    show addr + PAGEOVERHEAD + 8 = addr + 40 from by unfold PAGEOVERHEAD; omega,
    show addr + PAGEOVERHEAD = addr + 32 from by unfold PAGEOVERHEAD; omega,
    show PACK (B - PAGEOVERHEAD) 0 = B - 32 from by rw [pack_zero]; rfl,
    show PACK OVERHEAD 1 = 17 from by decide,
    show PACK 0 1 = 1 from by decide]
  by_cases hnf0 : s.nextFree = 0
  · rw [if_neg (show ¬s.nextFree ≠ 0 from by omega)]
    refine ⟨?_, ?_, ?_, ?_, ?_, rfl, ?_, ?_, ?_, ?_, ?_⟩
    · rw [GET_PUT_ne _ _ _ _ (by omega), GET_PUT_ne _ _ _ _ (by omega),
        GET_PUT_ne _ _ _ _ (by omega), GET_PUT_ne _ _ _ _ (by omega),
        GET_PUT_ne _ _ _ _ (by omega), GET_PUT_ne _ _ _ _ (by omega), GET_PUT_eq]
    · rw [GET_PUT_ne _ _ _ _ (by omega), GET_PUT_ne _ _ _ _ (by omega),
        GET_PUT_ne _ _ _ _ (by omega), GET_PUT_ne _ _ _ _ (by omega),
        GET_PUT_ne _ _ _ _ (by omega), GET_PUT_eq]
    · rw [GET_PUT_ne _ _ _ _ (by omega), GET_PUT_ne _ _ _ _ (by omega), GET_PUT_eq]
    · rw [GET_PUT_ne _ _ _ _ (by omega), GET_PUT_ne _ _ _ _ (by omega),
        GET_PUT_ne _ _ _ _ (by omega), GET_PUT_ne _ _ _ _ (by omega),
        GET_PUT_ne _ _ _ _ (by omega), GET_PUT_ne _ _ _ _ (by omega),
        GET_PUT_ne _ _ _ _ (by omega)]
      show (if addr ≤ addr + B - 16 ∧ addr + B - 16 < addr + B then 0 else s.mem _) = 0
      rw [if_pos (by omega)]
    · rw [GET_PUT_ne _ _ _ _ (by omega), GET_PUT_ne _ _ _ _ (by omega),
        GET_PUT_ne _ _ _ _ (by omega), GET_PUT_ne _ _ _ _ (by omega), GET_PUT_eq]
    · rw [GET_PUT_eq]
    · rw [GET_PUT_ne _ _ _ _ (by omega), GET_PUT_eq]
      omega
    · trivial
    · intro q hq hqnf
      rw [GET_PUT_ne _ _ _ _ (by omega), GET_PUT_ne _ _ _ _ (by omega),
        GET_PUT_ne _ _ _ _ (by omega), GET_PUT_ne _ _ _ _ (by omega),
        GET_PUT_ne _ _ _ _ (by omega), GET_PUT_ne _ _ _ _ (by omega),
        GET_PUT_ne _ _ _ _ (by omega)]
      show (if addr ≤ q ∧ q < addr + B then 0 else s.mem q) = GET s.mem q
      rw [if_neg (by omega)]
      rfl
    · intro _ q hq
      rw [GET_PUT_ne _ _ _ _ (by omega), GET_PUT_ne _ _ _ _ (by omega),
        GET_PUT_ne _ _ _ _ (by omega), GET_PUT_ne _ _ _ _ (by omega),
        GET_PUT_ne _ _ _ _ (by omega), GET_PUT_ne _ _ _ _ (by omega),
        GET_PUT_ne _ _ _ _ (by omega)]
      show (if addr ≤ q ∧ q < addr + B then 0 else s.mem q) = GET s.mem q
      rw [if_neg (by omega)]
      rfl
  · have hrange : s.nextFree < addr ∨ addr + B ≤ s.nextFree := by
      rcases hout with h | h | h
      · exact absurd h hnf0
      · exact Or.inl h
      · exact Or.inr h
    rw [if_pos hnf0]
    refine ⟨?_, ?_, ?_, ?_, ?_, rfl, ?_, ?_, ?_, ?_, ?_⟩
    · rw [GET_PUT_ne _ _ _ _ (by omega), GET_PUT_ne _ _ _ _ (by omega),
        GET_PUT_ne _ _ _ _ (by omega), GET_PUT_ne _ _ _ _ (by omega),
        GET_PUT_ne _ _ _ _ (by omega), GET_PUT_ne _ _ _ _ (by omega),
        GET_PUT_ne _ _ _ _ (by omega), GET_PUT_eq]
    · rw [GET_PUT_ne _ _ _ _ (by omega), GET_PUT_ne _ _ _ _ (by omega),
        GET_PUT_ne _ _ _ _ (by omega), GET_PUT_ne _ _ _ _ (by omega),
        GET_PUT_ne _ _ _ _ (by omega), GET_PUT_ne _ _ _ _ (by omega), GET_PUT_eq]
    · rw [GET_PUT_ne _ _ _ _ (by omega), GET_PUT_ne _ _ _ _ (by omega),
        GET_PUT_ne _ _ _ _ (by omega), GET_PUT_eq]
    · rw [GET_PUT_ne _ _ _ _ (by omega), GET_PUT_ne _ _ _ _ (by omega),
        GET_PUT_ne _ _ _ _ (by omega), GET_PUT_ne _ _ _ _ (by omega),
        GET_PUT_ne _ _ _ _ (by omega), GET_PUT_ne _ _ _ _ (by omega),
        GET_PUT_ne _ _ _ _ (by omega), GET_PUT_ne _ _ _ _ (by omega)]
      show (if addr ≤ addr + B - 16 ∧ addr + B - 16 < addr + B then 0 else s.mem _) = 0
      rw [if_pos (by omega)]
    · rw [GET_PUT_ne _ _ _ _ (by omega), GET_PUT_ne _ _ _ _ (by omega),
        GET_PUT_ne _ _ _ _ (by omega), GET_PUT_ne _ _ _ _ (by omega),
        GET_PUT_ne _ _ _ _ (by omega), GET_PUT_eq]
    · rw [GET_PUT_ne _ _ _ _ (by omega), GET_PUT_ne _ _ _ _ (by omega), GET_PUT_eq]
    · rw [GET_PUT_ne _ _ _ _ (by omega), GET_PUT_eq]
    · trivial
    · intro q hq hqnf
      rw [GET_PUT_ne _ _ _ _ hqnf, GET_PUT_ne _ _ _ _ (by omega),
        GET_PUT_ne _ _ _ _ (by omega), GET_PUT_ne _ _ _ _ (by omega),
        GET_PUT_ne _ _ _ _ (by omega), GET_PUT_ne _ _ _ _ (by omega),
        GET_PUT_ne _ _ _ _ (by omega), GET_PUT_ne _ _ _ _ (by omega)]
      show (if addr ≤ q ∧ q < addr + B then 0 else s.mem q) = GET s.mem q
      rw [if_neg (by omega)]
      rfl
    · intro h
      exact absurd h hnf0

/-! ### Claim theorems -/

/-- C1: the claimed header/footer parity fails on the code.  After the
public call `mm_init` returns (page size 4096, map granting 40960 bytes at
65536), the interior free block — reached from the prologue by one forward
step — has header word 40928 but footer word 0: source line 234 applies
`FTRP` to `pageAdr + OVERHEAD + sizeof(blockHeader)`, which resolves to the
interior *header* cell, so the interior footer is never written and keeps
the zero of the fresh mapping. -/
theorem c1_header_footer_parity_fails :
    NEXT_BLKP (mm_init 4096 provOnce junkMem).1.mem (65536 + 16) = 65536 + 32 ∧
    GET (mm_init 4096 provOnce junkMem).1.mem (HDRP (65536 + 32)) = 40928 ∧
    FTRP (mm_init 4096 provOnce junkMem).1.mem (65536 + 32) = 65536 + 40960 - 16 ∧
    GET (mm_init 4096 provOnce junkMem).1.mem
      (FTRP (mm_init 4096 provOnce junkMem).1.mem (65536 + 32)) = 0 ∧
    GET (mm_init 4096 provOnce junkMem).1.mem (HDRP (65536 + 32)) ≠
      GET (mm_init 4096 provOnce junkMem).1.mem
        (FTRP (mm_init 4096 provOnce junkMem).1.mem (65536 + 32)) := by
  decide

/-- C2: the claim's intended behaviour (allocate terminates and returns the
absent value when `map` fails) does not hold of the code.  A failed `extend`
does leave the state untouched, but `mm_malloc` then re-enters itself with
an unchanged state, so for every recursion bound the call fails to
terminate (result `none` = fuel exhausted at every fuel). -/
theorem c2_oom_alloc_never_returns :
    (∀ (s : AllocState) (sz : Nat), (extend 4096 failProv s sz).1 = s) ∧
    (∀ fuel, mm_malloc 4096 failProv 2 fuel initState (2 ^ 31) = none) := by
  constructor
  · intro s sz
    rfl
  · intro fuel
    induction fuel with
    | zero => rfl
    | succ n ih =>
      have h : mm_malloc 4096 failProv 2 (n + 1) initState (2 ^ 31) =
          (match mm_malloc 4096 failProv 2 n initState (2 ^ 31) with
           | none => none
           | some (s2, p, evs2) =>
              some (s2, p, (extend 4096 failProv initState (ALIGN (2 ^ 31 + OVERHEAD))).2
                ++ evs2)) := rfl
      rw [h, ih]

/-- C6, counterexample: for the 40960-byte region mapped by `extend`, the
interior block's header records 40928 = 40960 − 32, not
40960 − 48 = 40912 as the claim's formula states. -/
theorem c6_counterexample :
    GET_SIZE (GET (extend 4096 provOnce { mem := zeroMem, nextFree := 0, basePage := 0 }
      4096).1.mem (HDRP (65536 + 32))) = 40960 - 32 ∧
    40960 - 32 ≠ 40960 - 48 := by
  decide

/-- C6 (amended): for every region of `B` bytes successfully mapped by
`extend`, the interior block created at initialisation is free and its
header records size `B − (2·W + 2·W) = B − PAGEOVERHEAD`; with `W = 8` this
equals `B − 32`. -/
theorem c6_interior_block_size (ps s0 addr : Nat) (mapRes : Nat → Option Nat)
    (s : AllocState) (hps : 0 < ps) (h16 : 16 ∣ ps) (hs0 : 0 < s0)
    (haddr : addr % 16 = 0) (hnf16 : s.nextFree % 16 = 0)
    (hout : s.nextFree = 0 ∨ s.nextFree < addr ∨
      addr + PAGEALIGN ps s0 * PAGERATIO ≤ s.nextFree)
    (hmap : mapRes (PAGEALIGN ps s0 * PAGERATIO) = some addr) :
    GET (extend ps mapRes s s0).1.mem (HDRP (addr + 32)) =
      PAGEALIGN ps s0 * PAGERATIO - PAGEOVERHEAD ∧
    GET_ALLOC (GET (extend ps mapRes s s0).1.mem (HDRP (addr + 32))) = 0 ∧
    GET_SIZE (GET (extend ps mapRes s s0).1.mem (HDRP (addr + 32))) =
      PAGEALIGN ps s0 * PAGERATIO - 32 := by
  have hps16 : 16 ≤ ps := Nat.le_of_dvd hps h16
  have hpa16 : 16 ∣ PAGEALIGN ps s0 := dvd_trans h16 (pagealign_dvd ps s0)
  have hB16 : 16 ∣ PAGEALIGN ps s0 * PAGERATIO := Dvd.dvd.mul_right hpa16 _
  have hB160 : 160 ≤ PAGEALIGN ps s0 * PAGERATIO := by
    have h1 := pagealign_ge_ps ps s0 hps hs0
    unfold PAGERATIO
    omega
  have hstate1 : (extend ps mapRes s s0).1 =
      extendInit s addr (PAGEALIGN ps s0 * PAGERATIO) := by
    rw [extend_eq ps s0 addr mapRes s hps hmap]
  have hspec := extendInit_spec s addr (PAGEALIGN ps s0 * PAGERATIO)
    haddr hB16 hB160 hnf16 hout
  rw [hstate1, show HDRP (addr + 32) = addr + 24 from by unfold HDRP; omega]
  rw [hspec.2.2.1]
  have hd16 : (16 : Nat) ∣ PAGEALIGN ps s0 * PAGERATIO := hB16
  refine ⟨?_, ?_, ?_⟩
  · unfold PAGEOVERHEAD
    rfl
  · unfold GET_ALLOC
    omega
  · unfold GET_SIZE
    omega

/-- C6, witness: the amended theorem applied at page size 4096, request
4096, the provider granting 40960 bytes at 65536. -/
theorem c6_interior_block_size_witness :
    GET (extend 4096 provOnce { mem := zeroMem, nextFree := 0, basePage := 0 }
      4096).1.mem (HDRP (65536 + 32)) =
        PAGEALIGN 4096 4096 * PAGERATIO - PAGEOVERHEAD ∧
    GET_ALLOC (GET (extend 4096 provOnce { mem := zeroMem, nextFree := 0, basePage := 0 }
      4096).1.mem (HDRP (65536 + 32))) = 0 ∧
    GET_SIZE (GET (extend 4096 provOnce { mem := zeroMem, nextFree := 0, basePage := 0 }
      4096).1.mem (HDRP (65536 + 32))) = PAGEALIGN 4096 4096 * PAGERATIO - 32 :=
  c6_interior_block_size 4096 4096 65536 provOnce
    { mem := zeroMem, nextFree := 0, basePage := 0 }
    (by decide) (by decide) (by decide) (by decide) (by decide)
    (Or.inl rfl) (by decide)

/-- C7, counterexample: `mm_init` returns 0 — the success status — both
when the initial map fails and when it succeeds, so its return value does
not report whether the initial map succeeded. -/
theorem c7_counterexample :
    (mm_init 4096 failProv zeroMem).2.1 = 0 ∧
    (mm_init 4096 provOnce zeroMem).2.1 = 0 := by
  decide

/-- C7 (amended): `initialize` clears the EFL head and the primordial base,
establishes the primordial region by calling extend with the page size
(one map request of `K × page_size` bytes), and returns 0 unconditionally —
in particular it still reports 0 when the initial map call failed, leaving
the cleared state. -/
theorem c7_init_returns_zero (ps : Nat) (mapRes : Nat → Option Nat) (m0 : Mem)
    (hps : 0 < ps) :
    (mm_init ps mapRes m0).2.1 = 0 ∧
    (mm_init ps mapRes m0).2.2 =
      [Event.mapCall (ps * PAGERATIO) (mapRes (ps * PAGERATIO))] ∧
    (mm_init ps (fun _ => none) m0).1 = { mem := m0, nextFree := 0, basePage := 0 } ∧
    (mm_init ps (fun _ => none) m0).2.1 = 0 := by
  have hsize : (if ps % ps ≠ 0 then PAGEALIGN ps ps else ps) = ps := by
    rw [Nat.mod_self]
    simp
  refine ⟨rfl, ?_, ?_, rfl⟩
  · show (extend ps mapRes { mem := m0, nextFree := 0, basePage := 0 } ps).2 = _
    unfold extend
    simp only [hsize]
    cases h : mapRes (ps * PAGERATIO) <;> simp [h]
  · show (extend ps (fun _ => none) { mem := m0, nextFree := 0, basePage := 0 } ps).1 = _
    unfold extend
    simp only [hsize]

/-- C7, witness: the amended theorem applied at page size 4096 with the
single-grant provider. -/
theorem c7_init_returns_zero_witness :
    (mm_init 4096 provOnce zeroMem).2.1 = 0 ∧
    (mm_init 4096 provOnce zeroMem).2.2 =
      [Event.mapCall (4096 * PAGERATIO) (provOnce (4096 * PAGERATIO))] ∧
    (mm_init 4096 (fun _ => none) zeroMem).1 =
      { mem := zeroMem, nextFree := 0, basePage := 0 } ∧
    (mm_init 4096 (fun _ => none) zeroMem).2.1 = 0 :=
  c7_init_returns_zero 4096 provOnce zeroMem (by decide)

/-- One unfolding step of the first-fit walk. -/
theorem findFit_succ (m : Mem) (sa fuel avail : Nat) :
    findFit m sa (fuel + 1) avail =
      (if avail = 0 then some none
       else if GET_SIZE (GET m (HDRP avail)) ≥ sa then some (some avail)
       else findFit m sa fuel (GET m (avail + 8))) := rfl

/-- C9: `extend` requests exactly `K × page_aligned(s)` bytes from `map`
(the single map event, with `K = PAGERATIO = 10`), and a successful extend
creates a free block — the new EFL head — whose header size is at least
`s`, so the retry's first-fit walk finds a fitting block at its very first
step. -/
theorem c9_extend_request_and_refit (ps s0 addr : Nat) (mapRes : Nat → Option Nat)
    (s : AllocState) (hps : 0 < ps) (h16 : 16 ∣ ps) (hs0 : 0 < s0)
    (haddr : addr % 16 = 0) (hnf16 : s.nextFree % 16 = 0)
    (hout : s.nextFree = 0 ∨ s.nextFree < addr ∨
      addr + PAGEALIGN ps s0 * PAGERATIO ≤ s.nextFree)
    (hmap : mapRes (PAGEALIGN ps s0 * PAGERATIO) = some addr) :
    (extend ps mapRes s s0).2 =
      [Event.mapCall (PAGEALIGN ps s0 * PAGERATIO) (some addr)] ∧
    (extend ps mapRes s s0).1.nextFree = addr + 32 ∧
    s0 ≤ GET_SIZE (GET (extend ps mapRes s s0).1.mem (HDRP (addr + 32))) ∧
    findFit (extend ps mapRes s s0).1.mem s0 1 ((extend ps mapRes s s0).1.nextFree) =
      some (some (addr + 32)) := by
  have hps16 : 16 ≤ ps := Nat.le_of_dvd hps h16
  have hpage : s0 ≤ PAGEALIGN ps s0 := pagealign_ge ps s0 hps hs0
  have hpaps : ps ≤ PAGEALIGN ps s0 := pagealign_ge_ps ps s0 hps hs0
  have hpa16 : 16 ∣ PAGEALIGN ps s0 := dvd_trans h16 (pagealign_dvd ps s0)
  have hB16 : 16 ∣ PAGEALIGN ps s0 * PAGERATIO := Dvd.dvd.mul_right hpa16 _
  have hBval : PAGEALIGN ps s0 * PAGERATIO = PAGEALIGN ps s0 * 10 := by
    unfold PAGERATIO
    rfl
  have hB160 : 160 ≤ PAGEALIGN ps s0 * PAGERATIO := by omega
  have hstate1 : (extend ps mapRes s s0).1 =
      extendInit s addr (PAGEALIGN ps s0 * PAGERATIO) := by
    rw [extend_eq ps s0 addr mapRes s hps hmap]
  have hev : (extend ps mapRes s s0).2 =
      [Event.mapCall (PAGEALIGN ps s0 * PAGERATIO) (some addr)] := by
    rw [extend_eq ps s0 addr mapRes s hps hmap]
  have hspec := extendInit_spec s addr (PAGEALIGN ps s0 * PAGERATIO)
    haddr hB16 hB160 hnf16 hout
  have hsize : s0 ≤ GET_SIZE (GET (extend ps mapRes s s0).1.mem (HDRP (addr + 32))) := by
    rw [hstate1, show HDRP (addr + 32) = addr + 24 from by unfold HDRP; omega,
      hspec.2.2.1]
    unfold GET_SIZE
    omega
  refine ⟨hev, by rw [hstate1]; exact hspec.2.2.2.2.2.1, hsize, ?_⟩
  rw [hstate1, hspec.2.2.2.2.2.1, findFit_succ]
  rw [if_neg (by omega)]
  rw [if_pos (by
    rw [show HDRP (addr + 32) = addr + 24 from by unfold HDRP; omega, hspec.2.2.1]
    unfold GET_SIZE
    omega)]

/-- C9, witness: the theorem applied at page size 4096, request 48, the
provider granting 40960 bytes at 65536. -/
theorem c9_extend_request_and_refit_witness :
    (extend 4096 provOnce { mem := zeroMem, nextFree := 0, basePage := 0 } 48).2 =
      [Event.mapCall (PAGEALIGN 4096 48 * PAGERATIO) (some 65536)] ∧
    (extend 4096 provOnce { mem := zeroMem, nextFree := 0, basePage := 0 }
      48).1.nextFree = 65536 + 32 ∧
    48 ≤ GET_SIZE (GET (extend 4096 provOnce
      { mem := zeroMem, nextFree := 0, basePage := 0 } 48).1.mem (HDRP (65536 + 32))) ∧
    findFit (extend 4096 provOnce { mem := zeroMem, nextFree := 0, basePage := 0 }
        48).1.mem 48 1
      ((extend 4096 provOnce { mem := zeroMem, nextFree := 0, basePage := 0 }
        48).1.nextFree) = some (some (65536 + 32)) :=
  c9_extend_request_and_refit 4096 48 65536 provOnce
    { mem := zeroMem, nextFree := 0, basePage := 0 }
    (by decide) (by decide) (by decide) (by decide) (by decide)
    (Or.inl rfl) (by decide)

/-- `coalesce` when both neighbours are allocated: the freed block is
pushed on the EFL and returned unchanged. -/
theorem coalesce_case1 (s : AllocState) (L : List Nat) (bp sizeP sizeB sizeN : Nat)
    (hwf : eflWF s L) (hbpL : bp ∉ L) (hbp16 : bp % 16 = 0) (hbpP : sizeP + 16 ≤ bp)
    (h16B : 16 ∣ sizeB) (h16P : 16 ∣ sizeP) (h16N : 16 ∣ sizeN)
    (hB32 : 32 ≤ sizeB) (hP16 : 16 ≤ sizeP)
    (hb1 : GET s.mem (HDRP bp) = PACK sizeB 0)
    (hb2 : GET s.mem (bp + sizeB - 16) = PACK sizeB 0)
    (hp1 : GET s.mem (bp - 16) = PACK sizeP 1)
    (hp2 : GET s.mem (bp - sizeP - 8) = PACK sizeP 1)
    (hn1 : GET s.mem (bp + sizeB - 8) = PACK sizeN 1)
    (hcells : ∀ c ∈ [bp - 16, HDRP bp, bp + sizeB - 16, bp + sizeB - 8],
      linkCellsB (bp :: L) c = false) :
    (coalesce s bp).2 = bp ∧
    (coalesce s bp).1.nextFree = bp ∧
    chainB (coalesce s bp).1.mem (coalesce s bp).1.nextFree (bp :: L) = true ∧
    (bp :: L).count bp = 1 ∧
    GET (coalesce s bp).1.mem (HDRP bp) = PACK sizeB 0 ∧
    GET (coalesce s bp).1.mem (bp + sizeB - 16) = PACK sizeB 0 ∧
    GET_ALLOC (GET (coalesce s bp).1.mem (bp - 16)) = 1 ∧
    GET_ALLOC (GET (coalesce s bp).1.mem (bp + sizeB - 8)) = 1 := by
  have hsize : GET_SIZE (GET s.mem (HDRP bp)) = sizeB := by
    rw [hb1]
    exact getSize_pack_zero _ h16B
  have hNEXT : NEXT_BLKP s.mem bp = bp + sizeB := by
    unfold NEXT_BLKP
    rw [hsize]
  have hPREV : PREV_BLKP s.mem bp = bp - sizeP := by
    unfold PREV_BLKP
    rw [show bp - OVERHEAD = bp - 16 from rfl, hp1, getSize_pack_one sizeP h16P]
  have hprevA : GET_ALLOC (GET s.mem (FTRP s.mem (PREV_BLKP s.mem bp))) = 1 := by
    rw [hPREV]
    have hF : FTRP s.mem (bp - sizeP) = bp - 16 := by
      unfold FTRP
      rw [show HDRP (bp - sizeP) = bp - sizeP - 8 from rfl, hp2,
        getSize_pack_one sizeP h16P]
      unfold OVERHEAD
      omega
    rw [hF, hp1]
    exact getAlloc_pack_one sizeP h16P
  have hnextA : GET_ALLOC (GET s.mem (HDRP (NEXT_BLKP s.mem bp))) = 1 := by
    rw [hNEXT, show HDRP (bp + sizeB) = bp + sizeB - 8 from rfl, hn1]
    exact getAlloc_pack_one sizeN h16N
  have hco : coalesce s bp = (addEFLNode s bp, bp) := by
    unfold coalesce
    simp only []
    rw [hprevA, hnextA]
    rw [if_pos (by omega)]
  rw [hco]
  have hadd := addEFL_spec s L bp hwf hbpL (by omega) hbp16
  refine ⟨rfl, hadd.2.2.1, hadd.1.1, ?_, ?_, ?_, ?_, ?_⟩
  · rw [List.count_cons_self, List.count_eq_zero_of_not_mem hbpL]
  · rw [hadd.2.1 (HDRP bp) (hcells _ (by simp)), hb1]
  · rw [hadd.2.1 _ (hcells _ (by simp)), hb2]
  · rw [hadd.2.1 _ (hcells _ (by simp)), hp1]
    exact getAlloc_pack_one sizeP h16P
  · rw [hadd.2.1 _ (hcells _ (by simp)), hn1]
    exact getAlloc_pack_one sizeN h16N

/-- `coalesce` when only the next block is free: the next block leaves the
EFL, sizes merge, the freed block is pushed and returned. -/
theorem coalesce_case2 (s : AllocState) (L : List Nat) (bp sizeP sizeB sizeN : Nat)
    (hwf : eflWF s L) (hbpL : bp ∉ L) (hbp16 : bp % 16 = 0) (hbpP : sizeP + 16 ≤ bp)
    (h16B : 16 ∣ sizeB) (h16P : 16 ∣ sizeP) (h16N : 16 ∣ sizeN)
    (hB32 : 32 ≤ sizeB) (hP16 : 16 ≤ sizeP) (hN32 : 32 ≤ sizeN)
    (hb1 : GET s.mem (HDRP bp) = PACK sizeB 0)
    (hp1 : GET s.mem (bp - 16) = PACK sizeP 1)
    (hp2 : GET s.mem (bp - sizeP - 8) = PACK sizeP 1)
    (hn1 : GET s.mem (bp + sizeB - 8) = PACK sizeN 0)
    (hNL : bp + sizeB ∈ L)
    (hNN : GET_ALLOC (GET s.mem (bp + sizeB + sizeN - 8)) = 1)
    (hcells : ∀ c ∈ [bp - 16, HDRP bp, bp + sizeB + sizeN - 16, bp + sizeB + sizeN - 8],
      linkCellsB (bp :: L) c = false) :
    (coalesce s bp).2 = bp ∧
    (coalesce s bp).1.nextFree = bp ∧
    chainB (coalesce s bp).1.mem (coalesce s bp).1.nextFree
      (bp :: L.erase (bp + sizeB)) = true ∧
    (bp :: L.erase (bp + sizeB)).count bp = 1 ∧
    GET (coalesce s bp).1.mem (HDRP bp) = PACK (sizeB + sizeN) 0 ∧
    GET (coalesce s bp).1.mem (bp + sizeB + sizeN - 16) = PACK (sizeB + sizeN) 0 ∧
    GET_ALLOC (GET (coalesce s bp).1.mem (bp - 16)) = 1 ∧
    GET_ALLOC (GET (coalesce s bp).1.mem (bp + sizeB + sizeN - 8)) = 1 := by
  have hsize : GET_SIZE (GET s.mem (HDRP bp)) = sizeB := by
    rw [hb1]
    exact getSize_pack_zero _ h16B
  have hNEXT : NEXT_BLKP s.mem bp = bp + sizeB := by
    unfold NEXT_BLKP
    rw [hsize]
  have hPREV : PREV_BLKP s.mem bp = bp - sizeP := by
    unfold PREV_BLKP
    rw [show bp - OVERHEAD = bp - 16 from rfl, hp1, getSize_pack_one sizeP h16P]
  have hprevA : GET_ALLOC (GET s.mem (FTRP s.mem (PREV_BLKP s.mem bp))) = 1 := by
    rw [hPREV]
    have hF : FTRP s.mem (bp - sizeP) = bp - 16 := by
      unfold FTRP
      rw [show HDRP (bp - sizeP) = bp - sizeP - 8 from rfl, hp2,
        getSize_pack_one sizeP h16P]
      unfold OVERHEAD
      omega
    rw [hF, hp1]
    exact getAlloc_pack_one sizeP h16P
  have hnextA : GET_ALLOC (GET s.mem (HDRP (NEXT_BLKP s.mem bp))) = 0 := by
    rw [hNEXT, show HDRP (bp + sizeB) = bp + sizeB - 8 from rfl, hn1]
    exact getAlloc_pack_zero sizeN h16N
  have hszN : GET_SIZE (GET s.mem (HDRP (bp + sizeB))) = sizeN := by
    rw [show HDRP (bp + sizeB) = bp + sizeB - 8 from rfl, hn1]
    exact getSize_pack_zero _ h16N
  set s1 : AllocState := removeEFLNode s (bp + sizeB) with hs1
  have hrm := removeEFL_spec s L (bp + sizeB) hwf hNL
  rw [← hs1] at hrm
  set mC : Mem := PUT (PUT s1.mem (HDRP bp) (PACK (sizeB + sizeN) 0))
    (bp + sizeB + sizeN - 16) (PACK (sizeB + sizeN) 0) with hmC
  have hFT : FTRP (PUT s1.mem (HDRP bp) (PACK (sizeB + sizeN) 0)) bp =
      bp + sizeB + sizeN - 16 := by
    unfold FTRP
    rw [GET_PUT_eq, getSize_pack_zero _ (Nat.dvd_add h16B h16N)]
    unfold OVERHEAD
    omega
  have hco : coalesce s bp = (addEFLNode { s1 with mem := mC } bp, bp) := by
    unfold coalesce
    simp only []
    rw [hprevA, hnextA, if_neg (by omega), if_pos (by omega)]
    rw [hsize, hNEXT, hszN, ← hs1, hFT, ← hmC]
  rw [hco]
  have hsubE : ∀ x ∈ L.erase (bp + sizeB), x ∈ L :=
    fun x hx => List.mem_of_mem_erase hx
  have hsubC2 : ∀ x ∈ bp :: L.erase (bp + sizeB), x ∈ bp :: L := by
    intro x hx
    rcases List.mem_cons.mp hx with h | h
    · exact List.mem_cons.mpr (Or.inl h)
    · exact List.mem_cons.mpr (Or.inr (hsubE x h))
  have hwfC : eflWF { s1 with mem := mC } (L.erase (bp + sizeB)) := by
    rw [hmC]
    exact eflWF_put _ _ _ _ (eflWF_put _ _ _ _ hrm.1
      (linkCells_mono _ L _ hsubE (linkCells_tail _ _ _ (hcells _ (by simp)))))
      (linkCells_mono _ L _ hsubE (linkCells_tail _ _ _ (hcells _ (by simp))))
  have hadd := addEFL_spec { s1 with mem := mC } (L.erase (bp + sizeB)) bp hwfC
    (fun h => hbpL (hsubE _ h)) (by omega) hbp16
  refine ⟨rfl, hadd.2.2.1, hadd.1.1, ?_, ?_, ?_, ?_, ?_⟩
  · rw [List.count_cons_self,
      List.count_eq_zero_of_not_mem (fun h => hbpL (hsubE _ h))]
  · rw [hadd.2.1 (HDRP bp) (linkCells_mono _ _ _ hsubC2 (hcells _ (by simp)))]
    show GET mC (HDRP bp) = PACK (sizeB + sizeN) 0
    rw [hmC, GET_PUT_ne _ _ _ _ (by unfold HDRP; omega), GET_PUT_eq]
  · rw [hadd.2.1 _ (linkCells_mono _ _ _ hsubC2 (hcells _ (by simp)))]
    show GET mC (bp + sizeB + sizeN - 16) = PACK (sizeB + sizeN) 0
    rw [hmC, GET_PUT_eq]
  · rw [hadd.2.1 _ (linkCells_mono _ _ _ hsubC2 (hcells _ (by simp)))]
    show GET_ALLOC (GET mC (bp - 16)) = 1
    rw [hmC, GET_PUT_ne _ _ _ _ (by omega),
      GET_PUT_ne _ _ _ _ (by unfold HDRP; omega),
      hrm.2.1 _ (linkCells_tail _ _ _ (hcells _ (by simp))), hp1]
    exact getAlloc_pack_one sizeP h16P
  · rw [hadd.2.1 _ (linkCells_mono _ _ _ hsubC2 (hcells _ (by simp)))]
    show GET_ALLOC (GET mC (bp + sizeB + sizeN - 8)) = 1
    rw [hmC, GET_PUT_ne _ _ _ _ (by omega),
      GET_PUT_ne _ _ _ _ (by unfold HDRP; omega),
      hrm.2.1 _ (linkCells_tail _ _ _ (hcells _ (by simp)))]
    exact hNN

/-- `coalesce` when only the previous block is free: sizes merge into the
previous block, which is returned with no EFL insertion or removal. -/
theorem coalesce_case3 (s : AllocState) (L : List Nat) (bp sizeP sizeB sizeN : Nat)
    (hwf : eflWF s L) (hbp16 : bp % 16 = 0) (hbpP : sizeP + 16 ≤ bp)
    (h16B : 16 ∣ sizeB) (h16P : 16 ∣ sizeP) (h16N : 16 ∣ sizeN)
    (hB32 : 32 ≤ sizeB) (hP32 : 32 ≤ sizeP)
    (hb1 : GET s.mem (HDRP bp) = PACK sizeB 0)
    (hp1 : GET s.mem (bp - 16) = PACK sizeP 0)
    (hp2 : GET s.mem (bp - sizeP - 8) = PACK sizeP 0)
    (hn1 : GET s.mem (bp + sizeB - 8) = PACK sizeN 1)
    (hPL : bp - sizeP ∈ L)
    (hPP : GET_ALLOC (GET s.mem (bp - sizeP - 16)) = 1)
    (hcells : ∀ c ∈ [bp - sizeP - 16, bp - sizeP - 8, bp + sizeB - 16, bp + sizeB - 8],
      linkCellsB L c = false) :
    (coalesce s bp).2 = bp - sizeP ∧
    (coalesce s bp).1.nextFree = s.nextFree ∧
    chainB (coalesce s bp).1.mem (coalesce s bp).1.nextFree L = true ∧
    L.count (bp - sizeP) = 1 ∧
    GET (coalesce s bp).1.mem (bp - sizeP - 8) = PACK (sizeB + sizeP) 0 ∧
    GET (coalesce s bp).1.mem (bp + sizeB - 16) = PACK (sizeB + sizeP) 0 ∧
    GET_ALLOC (GET (coalesce s bp).1.mem (bp - sizeP - 16)) = 1 ∧
    GET_ALLOC (GET (coalesce s bp).1.mem (bp + sizeB - 8)) = 1 := by
  have hsize : GET_SIZE (GET s.mem (HDRP bp)) = sizeB := by
    rw [hb1]
    exact getSize_pack_zero _ h16B
  have hNEXT : NEXT_BLKP s.mem bp = bp + sizeB := by
    unfold NEXT_BLKP
    rw [hsize]
  have hPREV : PREV_BLKP s.mem bp = bp - sizeP := by
    unfold PREV_BLKP
    rw [show bp - OVERHEAD = bp - 16 from rfl, hp1, getSize_pack_zero _ h16P]
  have hprevA : GET_ALLOC (GET s.mem (FTRP s.mem (PREV_BLKP s.mem bp))) = 0 := by
    rw [hPREV]
    have hF : FTRP s.mem (bp - sizeP) = bp - 16 := by
      unfold FTRP
      rw [show HDRP (bp - sizeP) = bp - sizeP - 8 from rfl, hp2,
        getSize_pack_zero _ h16P]
      unfold OVERHEAD
      omega
    rw [hF, hp1]
    exact getAlloc_pack_zero sizeP h16P
  have hnextA : GET_ALLOC (GET s.mem (HDRP (NEXT_BLKP s.mem bp))) = 1 := by
    rw [hNEXT, show HDRP (bp + sizeB) = bp + sizeB - 8 from rfl, hn1]
    exact getAlloc_pack_one sizeN h16N
  have hszP : GET_SIZE (GET s.mem (HDRP (bp - sizeP))) = sizeP := by
    rw [show HDRP (bp - sizeP) = bp - sizeP - 8 from rfl, hp2]
    exact getSize_pack_zero _ h16P
  have hFTb : FTRP s.mem bp = bp + sizeB - 16 := by
    unfold FTRP
    rw [hb1, getSize_pack_zero _ h16B]
    unfold OVERHEAD
    omega
  set mA : Mem := PUT s.mem (bp + sizeB - 16) (PACK (sizeB + sizeP) 0) with hmA
  have hPBm1 : PREV_BLKP mA bp = bp - sizeP := by
    unfold PREV_BLKP
    rw [hmA, show bp - OVERHEAD = bp - 16 from rfl, GET_PUT_ne _ _ _ _ (by omega),
      hp1, getSize_pack_zero _ h16P]
  set mB : Mem := PUT mA (bp - sizeP - 8) (PACK (sizeB + sizeP) 0) with hmB
  have hPBm2 : PREV_BLKP mB bp = bp - sizeP := by
    unfold PREV_BLKP
    rw [hmB, show bp - OVERHEAD = bp - 16 from rfl, GET_PUT_ne _ _ _ _ (by omega),
      hmA, GET_PUT_ne _ _ _ _ (by omega), hp1, getSize_pack_zero _ h16P]
  have hco : coalesce s bp = ({ s with mem := mB }, bp - sizeP) := by
    unfold coalesce
    simp only []
    rw [hprevA, hnextA, if_neg (by omega), if_neg (by omega), if_pos (by omega)]
    rw [hsize, hPREV, hszP, hFTb, ← hmA, hPBm1,
      show HDRP (bp - sizeP) = bp - sizeP - 8 from rfl, ← hmB, hPBm2]
  rw [hco]
  have hwf2 : eflWF { s with mem := mB } L := by
    rw [hmB]
    refine eflWF_put { s with mem := mA } L _ _ ?_ (hcells _ (by simp))
    rw [hmA]
    exact eflWF_put s L _ _ hwf (hcells _ (by simp))
  refine ⟨rfl, rfl, hwf2.1, ?_, ?_, ?_, ?_, ?_⟩
  · exact List.count_eq_one_of_mem hwf.2.2.1 hPL
  · show GET mB (bp - sizeP - 8) = PACK (sizeB + sizeP) 0
    rw [hmB, GET_PUT_eq]
  · show GET mB (bp + sizeB - 16) = PACK (sizeB + sizeP) 0
    rw [hmB, GET_PUT_ne _ _ _ _ (by omega), hmA, GET_PUT_eq]
  · show GET_ALLOC (GET mB (bp - sizeP - 16)) = 1
    rw [hmB, GET_PUT_ne _ _ _ _ (by omega), hmA, GET_PUT_ne _ _ _ _ (by omega)]
    exact hPP
  · show GET_ALLOC (GET mB (bp + sizeB - 8)) = 1
    rw [hmB, GET_PUT_ne _ _ _ _ (by omega), hmA, GET_PUT_ne _ _ _ _ (by omega), hn1]
    exact getAlloc_pack_one sizeN h16N

/-- `coalesce` when both neighbours are free: only the next block leaves
the EFL, all three merge, and the previous block is returned. -/
theorem coalesce_case4 (s : AllocState) (L : List Nat) (bp sizeP sizeB sizeN : Nat)
    (hwf : eflWF s L) (hbp16 : bp % 16 = 0) (hbpP : sizeP + 16 ≤ bp)
    (h16B : 16 ∣ sizeB) (h16P : 16 ∣ sizeP) (h16N : 16 ∣ sizeN)
    (hB32 : 32 ≤ sizeB) (hP32 : 32 ≤ sizeP) (hN32 : 32 ≤ sizeN)
    (hb1 : GET s.mem (HDRP bp) = PACK sizeB 0)
    (hp1 : GET s.mem (bp - 16) = PACK sizeP 0)
    (hp2 : GET s.mem (bp - sizeP - 8) = PACK sizeP 0)
    (hn1 : GET s.mem (bp + sizeB - 8) = PACK sizeN 0)
    (hPL : bp - sizeP ∈ L) (hNL : bp + sizeB ∈ L)
    (hPP : GET_ALLOC (GET s.mem (bp - sizeP - 16)) = 1)
    (hNN : GET_ALLOC (GET s.mem (bp + sizeB + sizeN - 8)) = 1)
    (hcells : ∀ c ∈ [bp - sizeP - 16, bp - sizeP - 8, bp - 16,
        bp + sizeB + sizeN - 16, bp + sizeB + sizeN - 8],
      linkCellsB L c = false) :
    (coalesce s bp).2 = bp - sizeP ∧
    chainB (coalesce s bp).1.mem (coalesce s bp).1.nextFree
      (L.erase (bp + sizeB)) = true ∧
    (L.erase (bp + sizeB)).count (bp - sizeP) = 1 ∧
    GET (coalesce s bp).1.mem (bp - sizeP - 8) = PACK (sizeB + sizeP + sizeN) 0 ∧
    GET (coalesce s bp).1.mem (bp + sizeB + sizeN - 16) =
      PACK (sizeB + sizeP + sizeN) 0 ∧
    GET_ALLOC (GET (coalesce s bp).1.mem (bp - sizeP - 16)) = 1 ∧
    GET_ALLOC (GET (coalesce s bp).1.mem (bp + sizeB + sizeN - 8)) = 1 := by
  have hsize : GET_SIZE (GET s.mem (HDRP bp)) = sizeB := by
    rw [hb1]
    exact getSize_pack_zero _ h16B
  have hNEXT : NEXT_BLKP s.mem bp = bp + sizeB := by
    unfold NEXT_BLKP
    rw [hsize]
  have hPREV : PREV_BLKP s.mem bp = bp - sizeP := by
    unfold PREV_BLKP
    rw [show bp - OVERHEAD = bp - 16 from rfl, hp1, getSize_pack_zero _ h16P]
  have hprevA : GET_ALLOC (GET s.mem (FTRP s.mem (PREV_BLKP s.mem bp))) = 0 := by
    rw [hPREV]
    have hF : FTRP s.mem (bp - sizeP) = bp - 16 := by
      unfold FTRP
      rw [show HDRP (bp - sizeP) = bp - sizeP - 8 from rfl, hp2,
        getSize_pack_zero _ h16P]
      unfold OVERHEAD
      omega
    rw [hF, hp1]
    exact getAlloc_pack_zero sizeP h16P
  have hnextA : GET_ALLOC (GET s.mem (HDRP (NEXT_BLKP s.mem bp))) = 0 := by
    rw [hNEXT, show HDRP (bp + sizeB) = bp + sizeB - 8 from rfl, hn1]
    exact getAlloc_pack_zero sizeN h16N
  have hszP : GET_SIZE (GET s.mem (HDRP (bp - sizeP))) = sizeP := by
    rw [show HDRP (bp - sizeP) = bp - sizeP - 8 from rfl, hp2]
    exact getSize_pack_zero _ h16P
  have hszN : GET_SIZE (GET s.mem (HDRP (bp + sizeB))) = sizeN := by
    rw [show HDRP (bp + sizeB) = bp + sizeB - 8 from rfl, hn1]
    exact getSize_pack_zero _ h16N
  set s1 : AllocState := removeEFLNode s (bp + sizeB) with hs1
  have hrm := removeEFL_spec s L (bp + sizeB) hwf hNL
  rw [← hs1] at hrm
  have hPB1 : PREV_BLKP s1.mem bp = bp - sizeP := by
    unfold PREV_BLKP
    rw [show bp - OVERHEAD = bp - 16 from rfl, hrm.2.1 _ (hcells _ (by simp)),
      hp1, getSize_pack_zero _ h16P]
  set mA : Mem := PUT s1.mem (bp - sizeP - 8) (PACK (sizeB + sizeP + sizeN) 0) with hmA
  have hPB2 : PREV_BLKP mA bp = bp - sizeP := by
    unfold PREV_BLKP
    rw [hmA, show bp - OVERHEAD = bp - 16 from rfl, GET_PUT_ne _ _ _ _ (by omega),
      hrm.2.1 _ (hcells _ (by simp)), hp1, getSize_pack_zero _ h16P]
  have hFT : FTRP mA (bp - sizeP) = bp + sizeB + sizeN - 16 := by
    unfold FTRP
    rw [hmA, show HDRP (bp - sizeP) = bp - sizeP - 8 from rfl, GET_PUT_eq,
      getSize_pack_zero _ (Nat.dvd_add (Nat.dvd_add h16B h16P) h16N)]
    unfold OVERHEAD
    omega
  set mB : Mem := PUT mA (bp + sizeB + sizeN - 16) (PACK (sizeB + sizeP + sizeN) 0)
    with hmB
  have hPB3 : PREV_BLKP mB bp = bp - sizeP := by
    unfold PREV_BLKP
    rw [hmB, show bp - OVERHEAD = bp - 16 from rfl, GET_PUT_ne _ _ _ _ (by omega),
      hmA, GET_PUT_ne _ _ _ _ (by omega),
      hrm.2.1 _ (hcells _ (by simp)), hp1, getSize_pack_zero _ h16P]
  have hco : coalesce s bp = ({ s1 with mem := mB }, bp - sizeP) := by
    unfold coalesce
    simp only []
    rw [hprevA, hnextA, if_neg (by omega), if_neg (by omega), if_neg (by omega)]
    rw [hsize, hNEXT, hszN, hPREV, hszP, ← hs1, hPB1,
      show HDRP (bp - sizeP) = bp - sizeP - 8 from rfl, ← hmA, hPB2, hFT, ← hmB, hPB3]
  rw [hco]
  have hsubE : ∀ x ∈ L.erase (bp + sizeB), x ∈ L :=
    fun x hx => List.mem_of_mem_erase hx
  have hwfB : eflWF { s1 with mem := mB } (L.erase (bp + sizeB)) := by
    rw [hmB]
    refine eflWF_put { s1 with mem := mA } (L.erase (bp + sizeB)) _ _ ?_
      (linkCells_mono _ L _ hsubE (hcells (bp + sizeB + sizeN - 16) (by simp)))
    rw [hmA]
    exact eflWF_put s1 (L.erase (bp + sizeB)) _ _ hrm.1
      (linkCells_mono _ L _ hsubE (hcells (bp - sizeP - 8) (by simp)))
  refine ⟨rfl, hwfB.1, ?_, ?_, ?_, ?_, ?_⟩
  · exact List.count_eq_one_of_mem hrm.1.2.2.1
      ((List.mem_erase_of_ne (by omega)).mpr hPL)
  · show GET mB (bp - sizeP - 8) = PACK (sizeB + sizeP + sizeN) 0
    rw [hmB, GET_PUT_ne _ _ _ _ (by omega), hmA, GET_PUT_eq]
  · show GET mB (bp + sizeB + sizeN - 16) = PACK (sizeB + sizeP + sizeN) 0
    rw [hmB, GET_PUT_eq]
  · show GET_ALLOC (GET mB (bp - sizeP - 16)) = 1
    rw [hmB, GET_PUT_ne _ _ _ _ (by omega), hmA, GET_PUT_ne _ _ _ _ (by omega),
      hrm.2.1 _ (hcells _ (by simp))]
    exact hPP
  · show GET_ALLOC (GET mB (bp + sizeB + sizeN - 8)) = 1
    rw [hmB, GET_PUT_ne _ _ _ _ (by omega), hmA, GET_PUT_ne _ _ _ _ (by omega),
      hrm.2.1 _ (hcells _ (by simp))]
    exact hNN

/-- C3: `coalesce` on a just-freed block `bp` whose predecessor has size
`sizeP` and allocation bit `pA` and whose successor has size `sizeN` and
allocation bit `nA`.  If both neighbours are allocated, `bp` is pushed onto
the EFL and returned; if only the successor is free, it is removed from the
EFL, sizes merge, and `bp` is pushed and returned; if only the predecessor
is free, sizes merge into it and it is returned without any EFL insertion
or removal; if both are free, only the successor is removed, all three
merge, and the predecessor is returned.  In every case the returned block
is in the resulting EFL exactly once and both its neighbours are
allocated. -/
theorem c3_coalesce (s : AllocState) (L : List Nat) (bp sizeP sizeB sizeN pA nA : Nat)
    (hwf : eflWF s L) (hbpL : bp ∉ L) (hbp16 : bp % 16 = 0) (hbpP : sizeP + 16 ≤ bp)
    (h16B : 16 ∣ sizeB) (h16P : 16 ∣ sizeP) (h16N : 16 ∣ sizeN)
    (hB32 : 32 ≤ sizeB) (hP16 : 16 ≤ sizeP)
    (hpA : pA ≤ 1) (hnA : nA ≤ 1)
    (hPfree : pA = 0 → 32 ≤ sizeP) (hNfree : nA = 0 → 32 ≤ sizeN)
    (hb1 : GET s.mem (HDRP bp) = PACK sizeB 0)
    (hb2 : GET s.mem (bp + sizeB - 16) = PACK sizeB 0)
    (hp1 : GET s.mem (bp - 16) = PACK sizeP pA)
    (hp2 : GET s.mem (bp - sizeP - 8) = PACK sizeP pA)
    (hn1 : GET s.mem (bp + sizeB - 8) = PACK sizeN nA)
    (hPL : pA = 0 → bp - sizeP ∈ L) (hNL : nA = 0 → bp + sizeB ∈ L)
    (hPP : pA = 0 → GET_ALLOC (GET s.mem (bp - sizeP - 16)) = 1)
    (hNN : nA = 0 → GET_ALLOC (GET s.mem (bp + sizeB + sizeN - 8)) = 1)
    (hcells : ∀ c ∈ [bp - sizeP - 16, bp - sizeP - 8, bp - 16, HDRP bp,
        bp + sizeB - 16, bp + sizeB - 8, bp + sizeB + sizeN - 16,
        bp + sizeB + sizeN - 8],
      linkCellsB (bp :: L) c = false) :
    if pA = 1 then
      (if nA = 1 then
        (coalesce s bp).2 = bp ∧
        (coalesce s bp).1.nextFree = bp ∧
        chainB (coalesce s bp).1.mem (coalesce s bp).1.nextFree (bp :: L) = true ∧
        (bp :: L).count bp = 1 ∧
        GET (coalesce s bp).1.mem (HDRP bp) = PACK sizeB 0 ∧
        GET (coalesce s bp).1.mem (bp + sizeB - 16) = PACK sizeB 0 ∧
        GET_ALLOC (GET (coalesce s bp).1.mem (bp - 16)) = 1 ∧
        GET_ALLOC (GET (coalesce s bp).1.mem (bp + sizeB - 8)) = 1
      else
        (coalesce s bp).2 = bp ∧
        (coalesce s bp).1.nextFree = bp ∧
        chainB (coalesce s bp).1.mem (coalesce s bp).1.nextFree
          (bp :: L.erase (bp + sizeB)) = true ∧
        (bp :: L.erase (bp + sizeB)).count bp = 1 ∧
        GET (coalesce s bp).1.mem (HDRP bp) = PACK (sizeB + sizeN) 0 ∧
        GET (coalesce s bp).1.mem (bp + sizeB + sizeN - 16) =
          PACK (sizeB + sizeN) 0 ∧
        GET_ALLOC (GET (coalesce s bp).1.mem (bp - 16)) = 1 ∧
        GET_ALLOC (GET (coalesce s bp).1.mem (bp + sizeB + sizeN - 8)) = 1)
    else
      (if nA = 1 then
        (coalesce s bp).2 = bp - sizeP ∧
        (coalesce s bp).1.nextFree = s.nextFree ∧
        chainB (coalesce s bp).1.mem (coalesce s bp).1.nextFree L = true ∧
        L.count (bp - sizeP) = 1 ∧
        GET (coalesce s bp).1.mem (bp - sizeP - 8) = PACK (sizeB + sizeP) 0 ∧
        GET (coalesce s bp).1.mem (bp + sizeB - 16) = PACK (sizeB + sizeP) 0 ∧
        GET_ALLOC (GET (coalesce s bp).1.mem (bp - sizeP - 16)) = 1 ∧
        GET_ALLOC (GET (coalesce s bp).1.mem (bp + sizeB - 8)) = 1
      else
        (coalesce s bp).2 = bp - sizeP ∧
        chainB (coalesce s bp).1.mem (coalesce s bp).1.nextFree
          (L.erase (bp + sizeB)) = true ∧
        (L.erase (bp + sizeB)).count (bp - sizeP) = 1 ∧
        GET (coalesce s bp).1.mem (bp - sizeP - 8) =
          PACK (sizeB + sizeP + sizeN) 0 ∧
        GET (coalesce s bp).1.mem (bp + sizeB + sizeN - 16) =
          PACK (sizeB + sizeP + sizeN) 0 ∧
        GET_ALLOC (GET (coalesce s bp).1.mem (bp - sizeP - 16)) = 1 ∧
        GET_ALLOC (GET (coalesce s bp).1.mem (bp + sizeB + sizeN - 8)) = 1) := by
  rcases Nat.le_one_iff_eq_zero_or_eq_one.mp hpA with hP0 | hP1 <;>
    rcases Nat.le_one_iff_eq_zero_or_eq_one.mp hnA with hN0 | hN1
  · subst hP0; subst hN0
    rw [if_neg (Nat.zero_ne_one), if_neg (Nat.zero_ne_one)]
    exact coalesce_case4 s L bp sizeP sizeB sizeN hwf hbp16 hbpP h16B h16P h16N
      hB32 (hPfree rfl) (hNfree rfl) hb1 hp1 hp2 hn1 (hPL rfl) (hNL rfl)
      (hPP rfl) (hNN rfl)
      (fun c hc => linkCells_tail bp L c (hcells c (by simp at hc ⊢; omega)))
  · subst hP0; subst hN1
    rw [if_neg (Nat.zero_ne_one), if_pos (rfl : (1 : Nat) = 1)]
    exact coalesce_case3 s L bp sizeP sizeB sizeN hwf hbp16 hbpP h16B h16P h16N
      hB32 (hPfree rfl) hb1 hp1 hp2 hn1 (hPL rfl) (hPP rfl)
      (fun c hc => linkCells_tail bp L c (hcells c (by simp at hc ⊢; omega)))
  · subst hP1; subst hN0
    rw [if_pos (rfl : (1 : Nat) = 1), if_neg (Nat.zero_ne_one)]
    exact coalesce_case2 s L bp sizeP sizeB sizeN hwf hbpL hbp16 hbpP h16B h16P
      h16N hB32 hP16 (hNfree rfl) hb1 hp1 hp2 hn1 (hNL rfl) (hNN rfl)
      (fun c hc => hcells c (by simp at hc ⊢; omega))
  · subst hP1; subst hN1
    rw [if_pos (rfl : (1 : Nat) = 1), if_pos (rfl : (1 : Nat) = 1)]
    exact coalesce_case1 s L bp sizeP sizeB sizeN hwf hbpL hbp16 hbpP h16B h16P
      h16N hB32 hP16 hb1 hb2 hp1 hp2 hn1
      (fun c hc => hcells c (by simp at hc ⊢; omega))

/-- Witness for C3 at a concrete state: the free block at payload 64 with
both neighbours allocated is pushed onto the EFL and returned. -/
theorem c3_coalesce_witness :
    (coalesce c3State 64).2 = 64 ∧
    (coalesce c3State 64).1.nextFree = 64 ∧
    chainB (coalesce c3State 64).1.mem (coalesce c3State 64).1.nextFree
      (64 :: []) = true ∧
    ((64 : Nat) :: []).count 64 = 1 ∧
    GET (coalesce c3State 64).1.mem (HDRP 64) = PACK 32 0 ∧
    GET (coalesce c3State 64).1.mem (64 + 32 - 16) = PACK 32 0 ∧
    GET_ALLOC (GET (coalesce c3State 64).1.mem (64 - 16)) = 1 ∧
    GET_ALLOC (GET (coalesce c3State 64).1.mem (64 + 32 - 8)) = 1 := by
  have h := c3_coalesce c3State [] 64 16 32 0 1 1
    ⟨by decide, by decide, by decide, by decide⟩ (by decide)
    (by decide) (by decide) (by decide) (by decide) (by decide) (by decide)
    (by decide) (by decide) (by decide)
    (fun h => absurd h Nat.one_ne_zero) (fun h => absurd h Nat.one_ne_zero)
    (by decide) (by decide) (by decide) (by decide) (by decide)
    (fun h => absurd h Nat.one_ne_zero) (fun h => absurd h Nat.one_ne_zero)
    (fun h => absurd h Nat.one_ne_zero) (fun h => absurd h Nat.one_ne_zero)
    (by decide)
  rw [if_pos rfl, if_pos rfl] at h
  exact h

/-- C4: set-allocated on a free block `bp` of size `avail` with requested
aligned size `sz ≤ avail`.  If `avail − sz ≥ REGION_OVERHEAD`
(= `PAGEOVERHEAD`), the block's header and footer become `(sz, 1)`, the
block is removed from the EFL, and a new free block of size `avail − sz`
is written at the next block and pushed on the EFL (becoming the head);
otherwise header and footer become `(avail, 1)`, the block is removed from
the EFL, and no new free block is created. -/
theorem c4_setAllocated (s : AllocState) (L : List Nat) (bp avail sz : Nat)
    (hwf : eflWF s L) (hbpL : bp ∈ L)
    (hhdr : GET s.mem (HDRP bp) = PACK avail 0)
    (h16a : 16 ∣ avail) (h16s : 16 ∣ sz) (hs32 : 32 ≤ sz) (hsa : sz ≤ avail)
    (hnew : bp + sz ∉ L)
    (hd1 : linkCellsB ((bp + sz) :: L) (HDRP bp) = false)
    (hd2 : linkCellsB ((bp + sz) :: L) (bp + sz - 16) = false)
    (hd3 : linkCellsB ((bp + sz) :: L) (bp + sz - 8) = false)
    (hd4 : linkCellsB ((bp + sz) :: L) (bp + avail - 16) = false) :
    (if PAGEOVERHEAD ≤ avail - sz then
      GET (setAllocated s bp sz).mem (HDRP bp) = PACK sz 1 ∧
      GET (setAllocated s bp sz).mem (bp + sz - 16) = PACK sz 1 ∧
      GET (setAllocated s bp sz).mem (bp + sz - 8) = PACK (avail - sz) 0 ∧
      GET (setAllocated s bp sz).mem (bp + avail - 16) = PACK (avail - sz) 0 ∧
      (setAllocated s bp sz).nextFree = bp + sz ∧
      chainB (setAllocated s bp sz).mem (bp + sz) ((bp + sz) :: L.erase bp) = true
    else
      GET (setAllocated s bp sz).mem (HDRP bp) = PACK avail 1 ∧
      GET (setAllocated s bp sz).mem (bp + avail - 16) = PACK avail 1 ∧
      chainB (setAllocated s bp sz).mem (setAllocated s bp sz).nextFree
        (L.erase bp) = true) := by
  obtain ⟨hbp0, hbp16⟩ := alignedOk_mem L bp hwf.2.2.2 hbpL
  have hbpge : 16 ≤ bp := by omega
  have havail : GET_SIZE (GET s.mem (HDRP bp)) = avail := by
    rw [hhdr]
    exact getSize_pack_zero avail h16a
  have hd1L := linkCells_tail _ _ _ hd1
  have hd2L := linkCells_tail _ _ _ hd2
  have hd3L := linkCells_tail _ _ _ hd3
  have hd4L := linkCells_tail _ _ _ hd4
  have hsubE : ∀ x ∈ L.erase bp, x ∈ L := fun x hx => List.mem_of_mem_erase hx
  have hsubC : ∀ x ∈ (bp + sz) :: L.erase bp, x ∈ (bp + sz) :: L := by
    intro x hx
    rcases List.mem_cons.mp hx with h | h
    · exact List.mem_cons.mpr (Or.inl h)
    · exact List.mem_cons.mpr (Or.inr (hsubE x h))
  by_cases hsplit : PAGEOVERHEAD ≤ avail - sz
  · rw [if_pos hsplit]
    have hsplit32 : 32 ≤ avail - sz := hsplit
    set m2 : Mem := PUT (PUT s.mem (HDRP bp) (PACK sz 1)) (bp + sz - 16) (PACK sz 1)
      with hm2
    have hFTRP1 : FTRP (PUT s.mem (HDRP bp) (PACK sz 1)) bp = bp + sz - 16 := by
      unfold FTRP
      rw [GET_PUT_eq, getSize_pack_one sz h16s]
      unfold OVERHEAD
      omega
    have hwf2 : eflWF { s with mem := m2 } L := by
      rw [hm2]
      exact eflWF_put _ L _ _ (eflWF_put s L _ _ hwf hd1L) hd2L
    set s1 : AllocState := removeEFLNode { s with mem := m2 } bp with hs1
    have hrm := removeEFL_spec { s with mem := m2 } L bp hwf2 hbpL
    rw [← hs1] at hrm
    have hhdr1 : GET s1.mem (HDRP bp) = PACK sz 1 := by
      rw [hrm.2.1 (HDRP bp) hd1L]
      show GET m2 (HDRP bp) = PACK sz 1
      rw [hm2, GET_PUT_ne _ _ _ _ (by unfold HDRP; omega), GET_PUT_eq]
    have hnext : NEXT_BLKP s1.mem bp = bp + sz := by
      unfold NEXT_BLKP
      rw [hhdr1, getSize_pack_one sz h16s]
    set m4 : Mem := PUT (PUT s1.mem (HDRP (bp + sz)) (PACK (avail - sz) 0))
      (bp + avail - 16) (PACK (avail - sz) 0) with hm4
    have hFTRP2 : FTRP (PUT s1.mem (HDRP (bp + sz)) (PACK (avail - sz) 0)) (bp + sz) =
        bp + avail - 16 := by
      unfold FTRP
      rw [GET_PUT_eq, getSize_pack_zero _ (Nat.dvd_sub' h16a h16s)]
      unfold OVERHEAD
      omega
    have hset : setAllocated s bp sz = addEFLNode { s1 with mem := m4 } (bp + sz) := by
      unfold setAllocated
      simp only []
      rw [havail, if_pos hsplit, hFTRP1, ← hm2, ← hs1, hnext, hFTRP2, ← hm4]
    rw [hset]
    have hwf4 : eflWF { s1 with mem := m4 } (L.erase bp) := by
      rw [hm4]
      exact eflWF_put _ _ _ _ (eflWF_put _ _ _ _ hrm.1
        (linkCells_mono _ L _ hsubE hd3L)) (linkCells_mono _ L _ hsubE hd4L)
    have hadd := addEFL_spec { s1 with mem := m4 } (L.erase bp) (bp + sz) hwf4
      (fun h => hnew (hsubE _ h)) (by omega) (by omega)
    refine ⟨?_, ?_, ?_, ?_, hadd.2.2.1, ?_⟩
    · rw [hadd.2.1 (HDRP bp) (linkCells_mono _ _ _ hsubC hd1)]
      show GET m4 (HDRP bp) = PACK sz 1
      rw [hm4, GET_PUT_ne _ _ _ _ (by unfold HDRP; omega),
        GET_PUT_ne _ _ _ _ (by unfold HDRP; omega), hhdr1]
    · rw [hadd.2.1 (bp + sz - 16) (linkCells_mono _ _ _ hsubC hd2)]
      show GET m4 (bp + sz - 16) = PACK sz 1
      rw [hm4, GET_PUT_ne _ _ _ _ (by omega),
        GET_PUT_ne _ _ _ _ (by unfold HDRP; omega), hrm.2.1 (bp + sz - 16) hd2L]
      show GET m2 (bp + sz - 16) = PACK sz 1
      rw [hm2, GET_PUT_eq]
    · rw [hadd.2.1 (bp + sz - 8) (linkCells_mono _ _ _ hsubC hd3)]
      show GET m4 (bp + sz - 8) = PACK (avail - sz) 0
      rw [hm4, GET_PUT_ne _ _ _ _ (by omega),
        show HDRP (bp + sz) = bp + sz - 8 from rfl, GET_PUT_eq]
    · rw [hadd.2.1 (bp + avail - 16) (linkCells_mono _ _ _ hsubC hd4)]
      show GET m4 (bp + avail - 16) = PACK (avail - sz) 0
      rw [hm4, GET_PUT_eq]
    · have hc := hadd.1.1
      rw [hadd.2.2.1] at hc
      exact hc
  · rw [if_neg hsplit]
    set m2 : Mem := PUT (PUT s.mem (HDRP bp) (PACK avail 1))
      (bp + avail - 16) (PACK avail 1) with hm2
    have hFTRP1 : FTRP (PUT s.mem (HDRP bp) (PACK avail 1)) bp = bp + avail - 16 := by
      unfold FTRP
      rw [GET_PUT_eq, getSize_pack_one avail h16a]
      unfold OVERHEAD
      omega
    have hwf2 : eflWF { s with mem := m2 } L := by
      rw [hm2]
      exact eflWF_put _ L _ _ (eflWF_put s L _ _ hwf hd1L) hd4L
    have hrm := removeEFL_spec { s with mem := m2 } L bp hwf2 hbpL
    have hset : setAllocated s bp sz = removeEFLNode { s with mem := m2 } bp := by
      unfold setAllocated
      simp only []
      rw [havail, if_neg hsplit, hFTRP1, ← hm2]
    rw [hset]
    refine ⟨?_, ?_, ?_⟩
    · rw [hrm.2.1 (HDRP bp) hd1L]
      show GET m2 (HDRP bp) = PACK avail 1
      rw [hm2, GET_PUT_ne _ _ _ _ (by unfold HDRP; omega), GET_PUT_eq]
    · rw [hrm.2.1 (bp + avail - 16) hd4L]
      show GET m2 (bp + avail - 16) = PACK avail 1
      rw [hm2, GET_PUT_eq]
    · exact hrm.1.1


/-- C4, witness: splitting the single 96-byte free block at payload 32 for
an aligned request of 48 leaves an allocated 48-byte block and pushes the
48-byte remainder at payload 80 on the EFL. -/
theorem c4_setAllocated_witness :
    (if PAGEOVERHEAD ≤ 96 - 48 then
      GET (setAllocated c4State 32 48).mem (HDRP 32) = PACK 48 1 ∧
      GET (setAllocated c4State 32 48).mem (32 + 48 - 16) = PACK 48 1 ∧
      GET (setAllocated c4State 32 48).mem (32 + 48 - 8) = PACK (96 - 48) 0 ∧
      GET (setAllocated c4State 32 48).mem (32 + 96 - 16) = PACK (96 - 48) 0 ∧
      (setAllocated c4State 32 48).nextFree = 32 + 48 ∧
      chainB (setAllocated c4State 32 48).mem (32 + 48)
        ((32 + 48) :: List.erase [32] 32) = true
    else
      GET (setAllocated c4State 32 48).mem (HDRP 32) = PACK 96 1 ∧
      GET (setAllocated c4State 32 48).mem (32 + 96 - 16) = PACK 96 1 ∧
      chainB (setAllocated c4State 32 48).mem (setAllocated c4State 32 48).nextFree
        (List.erase [32] 32) = true) :=
  c4_setAllocated c4State [32] 32 96 48
    ⟨by decide, by decide, by decide, by decide⟩ (by decide) (by decide)
    (by decide) (by decide) (by decide) (by decide) (by decide)
    (by decide) (by decide) (by decide) (by decide)

/-- C10: calling `initialize` again resets the EFL head (afterwards the
list holds exactly the fresh region's interior block), reassigns the
primordial base to the freshly mapped region, performs exactly one map and
no unmap, and leaves every word outside the fresh region — in particular
all previously mapped regions — unchanged. -/
theorem c10_reinit_frame (ps addr : Nat) (mapRes : Nat → Option Nat) (m0 : Mem)
    (hps : 0 < ps) (h16 : 16 ∣ ps) (haddr : addr % 16 = 0)
    (hmap : mapRes (ps * PAGERATIO) = some addr) :
    (mm_init ps mapRes m0).2.1 = 0 ∧
    (mm_init ps mapRes m0).2.2 = [Event.mapCall (ps * PAGERATIO) (some addr)] ∧
    (mm_init ps mapRes m0).1.basePage = addr ∧
    (mm_init ps mapRes m0).1.nextFree = addr + 32 ∧
    chainB (mm_init ps mapRes m0).1.mem ((mm_init ps mapRes m0).1.nextFree)
      [addr + 32] = true ∧
    (∀ q, q < addr ∨ addr + ps * PAGERATIO ≤ q →
      GET (mm_init ps mapRes m0).1.mem q = GET m0 q) := by
  have hpaps : PAGEALIGN ps ps = ps := pagealign_of_dvd ps ps hps (Nat.mod_self ps)
  have hmap' : mapRes (PAGEALIGN ps ps * PAGERATIO) = some addr := by
    rw [hpaps]
    exact hmap
  have hps16 : 16 ≤ ps := Nat.le_of_dvd hps h16
  have hB16 : 16 ∣ ps * PAGERATIO := Dvd.dvd.mul_right h16 _
  have hB160 : 160 ≤ ps * PAGERATIO := by
    unfold PAGERATIO
    omega
  have hstate1 : (mm_init ps mapRes m0).1 =
      extendInit { mem := m0, nextFree := 0, basePage := 0 } addr (ps * PAGERATIO) := by
    show (extend ps mapRes { mem := m0, nextFree := 0, basePage := 0 } ps).1 = _
    rw [extend_eq ps ps addr mapRes _ hps hmap', hpaps]
  have hev : (mm_init ps mapRes m0).2.2 =
      [Event.mapCall (ps * PAGERATIO) (some addr)] := by
    show (extend ps mapRes { mem := m0, nextFree := 0, basePage := 0 } ps).2 = _
    rw [extend_eq ps ps addr mapRes _ hps hmap', hpaps]
  have hspec := extendInit_spec { mem := m0, nextFree := 0, basePage := 0 } addr
    (ps * PAGERATIO) haddr hB16 hB160 rfl (Or.inl rfl)
  refine ⟨rfl, hev, ?_, ?_, ?_, ?_⟩
  · rw [hstate1, hspec.2.2.2.2.2.2.2.2.1]
    rfl
  · rw [hstate1]
    exact hspec.2.2.2.2.2.1
  · rw [hstate1, hspec.2.2.2.2.2.1]
    show ((addr + 32 == addr + 32) &&
      (GET (extendInit { mem := m0, nextFree := 0, basePage := 0 } addr
        (ps * PAGERATIO)).mem (addr + 32 + 8) == 0)) = true
    rw [show addr + 32 + 8 = addr + 40 from by omega, hspec.2.2.2.2.2.2.2.1]
    simp
  · intro q hq
    rw [hstate1]
    exact hspec.2.2.2.2.2.2.2.2.2.2 rfl q hq

/-- The first-fit walk returns the first listed block whose size fits. -/
theorem findFit_first (m : Mem) (sa : Nat) :
    ∀ (L1 : List Nat) (p wfuel b : Nat) (L2 : List Nat),
    chainFromB m p (L1 ++ b :: L2) 0 = true →
    (∀ a ∈ L1, a ≠ 0) →
    (∀ a ∈ L1, GET_SIZE (GET m (HDRP a)) < sa) →
    b ≠ 0 →
    sa ≤ GET_SIZE (GET m (HDRP b)) →
    L1.length < wfuel →
    findFit m sa wfuel p = some (some b) := by
  intro L1
  induction L1 with
  | nil =>
    intro p wfuel b L2 hch _ _ hb0 hfit hfl
    obtain ⟨w, rfl⟩ : ∃ w, wfuel = w + 1 := ⟨wfuel - 1, by omega⟩
    have hpb : p = b := eq_of_beq ((Bool.and_eq_true _ _).mp
      (show ((p == b) && chainFromB m (GET m (b + 8)) L2 0) = true from hch)).1
    subst hpb
    rw [findFit_succ, if_neg hb0, if_pos hfit]
  | cons a L1 ih =>
    intro p wfuel b L2 hch hz hsmall hb0 hfit hfl
    obtain ⟨w, rfl⟩ : ∃ w, wfuel = w + 1 := ⟨wfuel - 1, by omega⟩
    have hch' := (Bool.and_eq_true _ _).mp
      (show ((p == a) && chainFromB m (GET m (a + 8)) (L1 ++ b :: L2) 0) = true from hch)
    have hpa : p = a := eq_of_beq hch'.1
    subst hpa
    rw [findFit_succ, if_neg (hz p (List.mem_cons_self p L1)), if_neg (by
      have := hsmall p (List.mem_cons_self p L1)
      omega)]
    exact ih (GET m (p + 8)) w b L2 hch'.2 (fun x hx => hz x (List.mem_cons_of_mem p hx))
      (fun x hx => hsmall x (List.mem_cons_of_mem p hx)) hb0 hfit
      (by simp only [List.length_cons] at hfl; omega)

/-- C8: for `n > 0`, `allocate` computes the needed size
`ALIGN (max n (2·W) + OVERHEAD)` and returns the payload address of the
first block of at least that size met when walking the EFL from the head
via `next` links (insertion order), handing exactly that block and size to
set-allocated. -/
theorem c8_first_fit (ps : Nat) (mapRes : Nat → Option Nat) (fuel n : Nat)
    (s : AllocState) (L1 L2 : List Nat) (b wfuel : Nat)
    (hn : 0 < n)
    (hchain : chainB s.mem s.nextFree (L1 ++ b :: L2) = true)
    (hzero : ∀ a ∈ L1, a ≠ 0) (hb0 : b ≠ 0)
    (hL1 : ∀ a ∈ L1, GET_SIZE (GET s.mem (HDRP a)) < ALIGN (Nat.max n 16 + OVERHEAD))
    (hb : ALIGN (Nat.max n 16 + OVERHEAD) ≤ GET_SIZE (GET s.mem (HDRP b)))
    (hfuel : L1.length < wfuel) :
    mm_malloc ps mapRes wfuel (fuel + 1) s n =
      some (setAllocated s b (ALIGN (Nat.max n 16 + OVERHEAD)), some b, []) := by
  have hmax : (if n ≤ MINSIZE then MINSIZE else n) = Nat.max n 16 := by
    unfold MINSIZE
    split
    · rename_i h
      exact (Nat.max_eq_right h).symm
    · rename_i h
      exact (Nat.max_eq_left (by omega)).symm
  have hunf : mm_malloc ps mapRes wfuel (fuel + 1) s n =
      (if n = 0 then some (s, none, [])
       else
        match findFit s.mem (ALIGN ((if n ≤ MINSIZE then MINSIZE else n) + OVERHEAD))
            wfuel s.nextFree with
        | none => none
        | some (some avail) =>
            some (setAllocated s avail
              (ALIGN ((if n ≤ MINSIZE then MINSIZE else n) + OVERHEAD)), some avail, [])
        | some none =>
          match mm_malloc ps mapRes wfuel fuel
              (extend ps mapRes s
                (ALIGN ((if n ≤ MINSIZE then MINSIZE else n) + OVERHEAD))).1
              (if n ≤ MINSIZE then MINSIZE else n) with
          | none => none
          | some (s2, p, evs2) =>
              some (s2, p,
                (extend ps mapRes s
                  (ALIGN ((if n ≤ MINSIZE then MINSIZE else n) + OVERHEAD))).2
                  ++ evs2)) := rfl
  rw [hunf, if_neg (by omega), hmax]
  rw [findFit_first s.mem (ALIGN (Nat.max n 16 + OVERHEAD)) L1 s.nextFree wfuel b L2
    hchain hzero hL1 hb0 hb hfuel]

/-- C8, witness: in the two-node EFL `[96, 160]` with block sizes 32 and
64, `mm_malloc 32` (needed size 48) skips node 96 and returns node 160. -/
theorem c8_first_fit_witness :
    mm_malloc 4096 failProv 2 1 fitState 32 =
      some (setAllocated fitState 160 (ALIGN (Nat.max 32 16 + OVERHEAD)), some 160, []) :=
  c8_first_fit 4096 failProv 0 32 fitState [96] [] 160 2 (by decide) (by decide)
    (by decide) (by decide) (by decide) (by decide) (by decide)

/-- C10, witness: the theorem applied at page size 4096 over junk-filled
prior memory, with the provider granting the fresh region at 65536; the
frame conjunct is sampled at the outside word 5. -/
theorem c10_reinit_frame_witness :
    (mm_init 4096 provOnce junkMem).2.1 = 0 ∧
    (mm_init 4096 provOnce junkMem).2.2 =
      [Event.mapCall (4096 * PAGERATIO) (some 65536)] ∧
    (mm_init 4096 provOnce junkMem).1.basePage = 65536 ∧
    (mm_init 4096 provOnce junkMem).1.nextFree = 65536 + 32 ∧
    chainB (mm_init 4096 provOnce junkMem).1.mem
      ((mm_init 4096 provOnce junkMem).1.nextFree) [65536 + 32] = true ∧
    GET (mm_init 4096 provOnce junkMem).1.mem 5 = GET junkMem 5 := by
  have h := c10_reinit_frame 4096 65536 provOnce junkMem
    (by decide) (by decide) (by decide) (by decide)
  exact ⟨h.1, h.2.1, h.2.2.1, h.2.2.2.1, h.2.2.2.2.1,
    h.2.2.2.2.2 5 (Or.inl (by decide))⟩


/-- C5: for every release whose coalesced block `bp2` has the prologue
(size `OVERHEAD`) as predecessor and the epilogue (size 0) as successor,
the region base is `bp2 - 2 * OVERHEAD`; if that base is the primordial
region nothing further happens (no unmap), otherwise `bp2` is removed from
the EFL and exactly one `unmap(base, size + PAGEOVERHEAD)` is issued. -/
theorem c5_release_empty_region (s s2 : AllocState) (L2 : List Nat)
    (bp bp2 B : Nat)
    (hco : coalesce (freedState s bp) bp = (s2, bp2))
    (hwf2 : eflWF s2 L2) (hmem : bp2 ∈ L2)
    (hpro : GET_SIZE (GET s2.mem (HDRP (PREV_BLKP s2.mem bp2))) = OVERHEAD)
    (hepi : GET_SIZE (GET s2.mem (HDRP (NEXT_BLKP s2.mem bp2))) = 0)
    (hB : GET_SIZE (GET s2.mem (HDRP bp2)) + PAGEOVERHEAD = B) :
    mm_free s bp =
      (if bp2 - 2 * OVERHEAD = s2.basePage then (s2, ([] : List Event))
       else (removeEFLNode s2 bp2,
         [Event.unmapCall (bp2 - 2 * OVERHEAD) B])) ∧
    (if bp2 - 2 * OVERHEAD = s2.basePage then True
     else eflWF (mm_free s bp).1 (L2.erase bp2) ∧
       (mm_free s bp).2.count (Event.unmapCall (bp2 - 2 * OVERHEAD) B) = 1) := by
  have key : mm_free s bp =
      if bp2 - 2 * OVERHEAD = s2.basePage then (s2, ([] : List Event))
      else (removeEFLNode s2 bp2,
        [Event.unmapCall (bp2 - 2 * OVERHEAD) B]) := by
    unfold mm_free
    rw [hco]
    show (if GET_SIZE (GET s2.mem (HDRP (PREV_BLKP s2.mem bp2))) = OVERHEAD ∧
          GET_SIZE (GET s2.mem (HDRP (NEXT_BLKP s2.mem bp2))) = 0 then
        if bp2 - 2 * OVERHEAD = s2.basePage then (s2, ([] : List Event))
        else (removeEFLNode s2 bp2,
          [Event.unmapCall (bp2 - 2 * OVERHEAD)
            (GET_SIZE (GET s2.mem (HDRP bp2)) + PAGEOVERHEAD)])
      else (s2, [])) = _
    rw [if_pos ⟨hpro, hepi⟩, hB]
  refine ⟨key, ?_⟩
  by_cases hbase : bp2 - 2 * OVERHEAD = s2.basePage
  · rw [if_pos hbase]
    trivial
  · rw [if_neg hbase, key, if_neg hbase]
    refine ⟨(removeEFL_spec s2 L2 bp2 hwf2 hmem).1, ?_⟩
    rw [List.count_cons_self, List.count_nil]

/-- C5, witness: releasing the only allocated block of the non-primordial
region at 4096 removes the coalesced block from the EFL and issues exactly
one `unmap(4096, 80)` covering the whole region. -/
theorem c5_release_empty_region_witness :
    mm_free c5State 4128 =
      (removeEFLNode (coalesce (freedState c5State 4128) 4128).1
         (coalesce (freedState c5State 4128) 4128).2,
       [Event.unmapCall 4096 80]) ∧
    eflWF (mm_free c5State 4128).1 (([4128] : List Nat).erase 4128) ∧
    (mm_free c5State 4128).2.count (Event.unmapCall 4096 80) = 1 := by
  have h := c5_release_empty_region c5State
    (coalesce (freedState c5State 4128) 4128).1 [4128] 4128
    (coalesce (freedState c5State 4128) 4128).2 80
    rfl ⟨by decide, by decide, by decide, by decide⟩ (by decide)
    (by decide) (by decide) (by decide)
  rw [if_neg (by decide), if_neg (by decide)] at h
  exact ⟨h.1, h.2⟩

end MemoryAllocator
